import Mathlib

/-!
fever-sessions: a shallow embedding of the session lifecycle.

The development follows `sessions.go` and `store.go`.

* A Go `interface{}` held in the bag is a `Value`; `[]interface{}` is `Value.slice`.
* `map[string]interface{}` is an association list with one entry per key.
* A failed type assertion (`v.([]interface{})`) is a run-time panic: `none`.
* The `Store` interface is a record of state transformers over a backend state;
  every call made through the interface is appended to a trace (`World.calls`).
* `func() string` (the identifier generator) is a transformer of a generator state.
* `http.ResponseWriter` is the list of cookies handed to `http.SetCookie`, oldest first.
* The gob codec behind `Sessions.Encode` / `Sessions.Decode` is a pair of functions
  carried by the manager.
* `time.Now()` is an argument of the functions that read the clock.
* `crypto/sha1` is a parameter of the default generator, with a digest of 20 bytes;
  `crypto/rand` is a list of the outcomes of the coming `rand.Read` calls.
* `regexp.MatchString` is a matcher for the constructs the pattern of the package uses,
  on the characters of the string.
-/

set_option autoImplicit false

namespace FeverSessions

/-! ## Values and the bag -/

/-- A dynamically typed Go value (`interface{}`) as the bag may hold it; `other` is a
value of any further type, a struct say, given by the name of its type. -/
inductive Value where
  | nil : Value
  | bool : Bool → Value
  | int : Int → Value
  | str : String → Value
  | slice : List Value → Value
  | other : String → Value

/-- A Go map with string keys, `map[string]T`: at most one entry per key. -/
abbrev GoMap (β : Type) := List (String × β)

/-- Map lookup `v, ok := m[key]`. -/
def GoMap.get {β : Type} (m : GoMap β) (key : String) : Option β :=
  match m with
  | [] => none
  | (k, v) :: rest => if k = key then some v else GoMap.get rest key

/-- Builtin `delete(m, key)`. -/
def GoMap.delete {β : Type} (m : GoMap β) (key : String) : GoMap β :=
  match m with
  | [] => []
  | (k, v) :: rest =>
    if k = key then GoMap.delete rest key else (k, v) :: GoMap.delete rest key

/-- Map assignment `m[key] = val`: replaces the entry of `key` if there is one. -/
def GoMap.set {β : Type} (m : GoMap β) (key : String) (val : β) : GoMap β :=
  match m with
  | [] => [(key, val)]
  | (k, v) :: rest =>
    if k = key then (key, val) :: GoMap.delete rest key else (k, v) :: GoMap.set rest key val

/-- Builtin `len(m)`. -/
def GoMap.len {β : Type} (m : GoMap β) : Nat := m.length

/-- The Go type `sessionValues`, `map[string]interface{}`. -/
abbrev sessionValues := GoMap Value

/-! ## Collaborators: errors, bytes, time, the store interface -/

/-- A Go `error` value (non-nil). -/
abbrev Error := String

/-- A Go `[]byte`. -/
abbrev Bytes := List UInt8

/-- A `time.Time`, as an instant on some clock. -/
abbrev Time := Nat

/-- The `Store` interface of `store.go` over a backend state `σ`: each method returns
its Go results together with the backend state it leaves. -/
structure Store (σ : Type) where
  Get : σ → String → Except Error Bytes × σ
  Set : σ → String → Bytes → Option Error × σ
  Del : σ → String → Option Error × σ

/-- One call made through the `Store` interface. -/
inductive StoreCall where
  | get (key : String)
  | set (key : String) (val : Bytes)
  | del (key : String)
  deriving DecidableEq

/-- What a request can change outside the session object: the backend of the store,
the state of the identifier generator, and the trace of store calls so far. -/
structure World (σ γ : Type) where
  store : σ
  gen : γ
  calls : List StoreCall

/-- An `http.Cookie` with the fields `setCookie` fills in. -/
structure Cookie where
  Name : String
  Value : String
  Path : String
  Domain : String
  Expires : Time
  Secure : Bool
  HttpOnly : Bool
  deriving DecidableEq

/-- The response as far as sessions are concerned: the cookies passed to
`http.SetCookie`, oldest first. -/
abbrev ResponseWriter := List Cookie

/-! ## The manager and the session object -/

/-- The Go struct `Sessions`. `SidGenerator` and `SidValidator` are the functions in
force once `Middleware` has filled in the defaults. `gobEncode` and `gobDecode` stand for
the gob encoder and decoder that the methods `Encode` and `Decode` drive. -/
structure Sessions (σ γ : Type) where
  Store : Store σ
  CookieName : String
  NoKeepEmpty : Bool
  Path : String
  Domain : String
  Expires : Time
  Secure : Bool
  HttpOnly : Bool
  SidGenerator : γ → String × γ
  SidValidator : String → Bool
  gobEncode : sessionValues → Except Error Bytes
  gobDecode : Bytes → Except Error sessionValues

/-- The Go struct `session`, without the back pointer `ss`, which every function that
needs the manager takes as an argument. -/
structure session where
  sid : String
  values : sessionValues
  isNew : Bool
  changeId : Bool
  expire : Bool
  noStore : Bool
  written : Bool
  Path : String
  Domain : String
  Expires : Time
  Secure : Bool
  HttpOnly : Bool

variable {σ γ : Type}

/-- The package variable `defaultFlashKey`. -/
def defaultFlashKey : String := "_flash"

/-- The package variable `defaultCookieName`. -/
def defaultCookieName : String := "sessions"

/-- The key chosen by `AddFlash` and `Flashes` from their variadic argument. -/
def flashKey (vars : List String) : String :=
  match vars with
  | [] => defaultFlashKey
  | k :: _ => k

/-- Method `Get`: the value under `key`, or `nil`. -/
def session.Get (s : session) (key : String) : Value :=
  match s.values.get key with
  | some v => v
  | none => Value.nil

/-- Method `Exists`. -/
def session.Exists (s : session) (key : String) : Bool :=
  (s.values.get key).isSome

/-- Method `Set`. -/
def session.Set (s : session) (key : String) (val : Value) : session :=
  { s with values := s.values.set key val, written := true }

/-- Method `Del`. -/
def session.Del (s : session) (key : String) : session :=
  { s with values := s.values.delete key, written := true }

/-- Method `AddFlash`; `none` is the panic of `v.([]interface{})` on a value that is
not a slice. -/
def session.AddFlash (s : session) (val : Value) (vars : List String) : Option session :=
  let key := flashKey vars
  match s.values.get key with
  | some (Value.slice flashes) =>
    some { s with values := s.values.set key (Value.slice (flashes ++ [val])), written := true }
  | some _ => none
  | none =>
    some { s with values := s.values.set key (Value.slice [val]), written := true }

/-- Method `Flashes`: the returned slice and the session afterwards; `none` is the
panic of `v.([]interface{})` on a value that is not a slice. -/
def session.Flashes (s : session) (vars : List String) : Option (List Value × session) :=
  let key := flashKey vars
  match s.values.get key with
  | some (Value.slice flashes) =>
    some (flashes, { s with values := s.values.delete key, written := true })
  | some _ => none
  | none => some ([], s)

/-- Method `NoStore` called with an argument. -/
def session.NoStore (s : session) (v : Bool) : session := { s with noStore := v }

/-- Method `ChangeId` called with an argument. -/
def session.ChangeId (s : session) (v : Bool) : session := { s with changeId := v }

/-- Method `Expire` called with an argument. -/
def session.Expire (s : session) (v : Bool) : session := { s with expire := v }

/-- Method `HasKey`. -/
def session.HasKey (s : session) : Bool :=
  if 0 < s.values.len then true else false

/-! ## Store calls, traced -/

/-- The call `ss.Store.Get(key)`. -/
def World.Get (ss : Sessions σ γ) (w : World σ γ) (key : String) :
    Except Error Bytes × World σ γ :=
  let r := ss.Store.Get w.store key
  (r.1, { w with store := r.2, calls := w.calls ++ [StoreCall.get key] })

/-- The call `ss.Store.Set(key, val)`. -/
def World.Set (ss : Sessions σ γ) (w : World σ γ) (key : String) (val : Bytes) :
    Option Error × World σ γ :=
  let r := ss.Store.Set w.store key val
  (r.1, { w with store := r.2, calls := w.calls ++ [StoreCall.set key val] })

/-- The call `ss.Store.Del(key)`. -/
def World.Del (ss : Sessions σ γ) (w : World σ γ) (key : String) :
    Option Error × World σ γ :=
  let r := ss.Store.Del w.store key
  (r.1, { w with store := r.2, calls := w.calls ++ [StoreCall.del key] })

/-- Method `Sessions.Encode`. -/
def Sessions.Encode (ss : Sessions σ γ) (val : sessionValues) : Except Error Bytes :=
  ss.gobEncode val

/-- Method `Sessions.Decode`. -/
def Sessions.Decode (ss : Sessions σ γ) (b : Bytes) : Except Error sessionValues :=
  ss.gobDecode b

/-! ## Finalize: the store write and the cookie write -/

/-- Method `sidRegenerate`. -/
def session.sidRegenerate (ss : Sessions σ γ) (s : session) (w : World σ γ) :
    session × World σ γ :=
  let r := ss.SidGenerator w.gen
  ({ s with sid := r.1 }, { w with gen := r.2 })

/-- Method `needStore`. -/
def session.needStore (ss : Sessions σ γ) (s : session) : Bool :=
  if s.noStore then false
  else if (s.isNew && !ss.NoKeepEmpty && !s.HasKey) || s.written || s.expire || s.changeId
  then true
  else false

/-- Method `store`: the returned error (if any), the session and the world afterwards. -/
def session.store (ss : Sessions σ γ) (s : session) (w : World σ γ) :
    Option Error × session × World σ γ :=
  if !s.needStore ss then (none, s, w)
  else if s.expire then
    let r := w.Del ss s.sid
    (r.1, s, r.2)
  else
    let rotated : Except (Error × World σ γ) (session × World σ γ) :=
      if s.changeId then
        match w.Del ss s.sid with
        | (some err, w1) => Except.error (err, w1)
        | (none, w1) => Except.ok (s.sidRegenerate ss w1)
      else Except.ok (s, w)
    match rotated with
    | Except.error (err, w1) => (some err, s, w1)
    | Except.ok (s1, w1) =>
      match ss.Encode s1.values with
      | Except.error err => (some err, s1, w1)
      | Except.ok b =>
        let r := w1.Set ss s1.sid b
        (r.1, s1, r.2)

/-- Method `needSetCookie`. -/
def session.needSetCookie (ss : Sessions σ γ) (s : session) : Bool :=
  if (s.isNew && !ss.NoKeepEmpty && !s.HasKey) || (s.isNew && s.written) || s.expire ||
      s.changeId
  then true
  else false

/-- Method `setCookie`; `now` is what `time.Now()` returns. -/
def session.setCookie (ss : Sessions σ γ) (s : session) (now : Time) (w : ResponseWriter) :
    ResponseWriter :=
  if !s.needSetCookie ss then w
  else
    let cookie : Cookie :=
      { Name := ss.CookieName, Value := s.sid, Path := s.Path, Domain := s.Domain,
        Expires := s.Expires, Secure := s.Secure, HttpOnly := s.HttpOnly }
    let cookie := if s.expire then { cookie with Expires := now } else cookie
    w ++ [cookie]

/-- Method `Sessions.finalize`: the returned error (if any), the session, the world and
the response afterwards. -/
def Sessions.finalize (ss : Sessions σ γ) (now : Time) (w : ResponseWriter) (s : session)
    (wd : World σ γ) : Option Error × session × World σ γ × ResponseWriter :=
  match s.store ss wd with
  | (some err, s1, wd1) => (some err, s1, wd1, w)
  | (none, s1, wd1) => (none, s1, wd1, s1.setCookie ss now w)

/-! ## The identifier policy -/

/-- The fragment of the Go regexp syntax that the package uses: `\A`, `\z`, a character
class given by its ranges, a fixed repetition `r{n}` and concatenation. -/
inductive Regexp where
  | beginText : Regexp
  | endText : Regexp
  | charClass : List (Char × Char) → Regexp
  | times : Regexp → Nat → Regexp
  | concat : Regexp → Regexp → Regexp

/-- A position in the text being matched: the offset reached and the text that is left. -/
abbrev Pos := Nat × List Char

/-- Whether a character lies in one of the ranges of a character class. -/
def inRanges (ranges : List (Char × Char)) (c : Char) : Bool :=
  ranges.any (fun r => decide (r.1 ≤ c) && decide (c ≤ r.2))

/-- Every position at which a match of the expression that starts at `p` can end. -/
def Regexp.run : Regexp → Pos → List Pos
  | Regexp.beginText, p => if p.1 = 0 then [p] else []
  | Regexp.endText, p => if p.2.isEmpty then [p] else []
  | Regexp.charClass ranges, p =>
    match p.2 with
    | [] => []
    | c :: cs =>
      if inRanges ranges c then [(p.1 + 1, cs)] else []
  | Regexp.times r n, p => Nat.iterate (fun ps => ps.flatMap r.run) n [p]
  | Regexp.concat a b, p => (a.run p).flatMap b.run

/-- Method `MatchString` of a compiled regexp: whether the text contains a match,
starting at any offset. -/
def Regexp.MatchString (r : Regexp) (s : String) : Bool :=
  (List.range (s.length + 1)).any (fun i => !(r.run (i, s.data.drop i)).isEmpty)

/-- The package variable `re`, the compiled pattern `\A[0-9a-f]{40}\z`. -/
def re : Regexp :=
  Regexp.concat Regexp.beginText
    (Regexp.concat (Regexp.times (Regexp.charClass [('0', '9'), ('a', 'f')]) 40)
      Regexp.endText)

/-- The default validator `sidValidator`. -/
def sidValidator (sid : String) : Bool := re.MatchString sid

/-! ## The default generator -/

/-- The digits that the verb `%x` of `fmt` writes. -/
def ldigits : List Char :=
  ['0', '1', '2', '3', '4', '5', '6', '7', '8', '9', 'a', 'b', 'c', 'd', 'e', 'f']

/-- The digit of a value below 16. -/
def hexDigit (n : Nat) : Char := ldigits.getD n '0'

/-- The call `fmt.Sprintf("%x", b)` on a byte slice: two lower-case hexadecimal digits
per byte, the high one first. -/
def sprintfHex (b : Bytes) : String :=
  String.mk (b.flatMap (fun x => [hexDigit (x.toNat / 16), hexDigit (x.toNat % 16)]))

/-- The hash of `crypto/sha1` as `sidGenerator` drives it: `sum b` is `h.Sum(nil)` after
`h.Write(b)` on the hash `sha1.New()`, a digest of `sha1.Size`, 20, bytes. -/
structure Sha1 where
  sum : Bytes → Bytes
  size : ∀ b : Bytes, (sum b).length = 20

/-- The buffer `make([]byte, 32)` once `rand.Read` has filled it. -/
abbrev Block32 := { r : Bytes // r.length = 32 }

/-- The source behind `crypto/rand`: what the coming calls of `rand.Read` on a buffer of
32 bytes do, `none` being a call that returns an error. A source that is used up only
returns errors. -/
abbrev Rand := List (Option Block32)

/-- The call `rand.Read(b)` on a buffer of 32 bytes. -/
def Rand.Read (r : Rand) : Option Block32 × Rand :=
  match r with
  | [] => (none, [])
  | x :: rest => (x, rest)

/-- The default generator `sidGenerator`. -/
def sidGenerator (sha1 : Sha1) (r : Rand) : String × Rand :=
  match r.Read with
  | (none, r1) => ("", r1)
  | (some b, r1) => (sprintfHex (sha1.sum b.1), r1)

/-! ## The pre-handler phase -/

/-- Method `Sessions.getSessionValues`; `cookie` is the value of the cookie that
`r.Cookie(ss.CookieName)` finds, if it finds one. -/
def Sessions.getSessionValues (ss : Sessions σ γ) (cookie : Option String) (w : World σ γ) :
    (String × sessionValues × Option Error) × World σ γ :=
  match cookie with
  | none => (("", [], none), w)
  | some sid =>
    if !ss.SidValidator sid then (("", [], none), w)
    else
      match w.Get ss sid with
      | (Except.error err, w1) => (("", [], some err), w1)
      | (Except.ok encodedValue, w1) =>
        if encodedValue.length = 0 then (("", [], none), w1)
        else
          match ss.Decode encodedValue with
          | Except.error err => (("", [], some err), w1)
          | Except.ok decodedValue => ((sid, decodedValue, none), w1)

/-- The first half of the handler that `Middleware` returns: the session it constructs,
or the error it panics with. -/
def Sessions.newSession (ss : Sessions σ γ) (cookie : Option String) (w : World σ γ) :
    Except Error session × World σ γ :=
  match ss.getSessionValues cookie w with
  | ((_, _, some err), w1) => (Except.error err, w1)
  | ((sid, values, none), w1) =>
    let r : (String × Bool) × World σ γ :=
      if sid = "" then
        let g := ss.SidGenerator w1.gen
        ((g.1, true), { w1 with gen := g.2 })
      else ((sid, false), w1)
    (Except.ok
      { sid := r.1.1, values := values, isNew := r.1.2, changeId := false, expire := false,
        noStore := false, written := false, Path := ss.Path, Domain := ss.Domain,
        Expires := ss.Expires, Secure := ss.Secure, HttpOnly := ss.HttpOnly }, r.2)

/-! ## The in-memory store -/

/-- The field `values` of a `MemoryStore`. -/
abbrev MemoryStore := GoMap Bytes

/-- Function `NewMemoryStore`. -/
def NewMemoryStore : MemoryStore := []

/-- Method `MemoryStore.Get`. -/
def MemoryStore.Get (ms : MemoryStore) (key : String) : Except Error Bytes × MemoryStore :=
  match GoMap.get ms key with
  | some v => (Except.ok v, ms)
  | none => (Except.ok [], ms)

/-- Method `MemoryStore.Set`. -/
def MemoryStore.Set (ms : MemoryStore) (key : String) (val : Bytes) :
    Option Error × MemoryStore :=
  (none, GoMap.set ms key val)

/-- Method `MemoryStore.Del`. -/
def MemoryStore.Del (ms : MemoryStore) (key : String) : Option Error × MemoryStore :=
  (none, GoMap.delete ms key)

/-- A `MemoryStore` behind the `Store` interface. -/
def MemoryStore.asStore : Store MemoryStore :=
  { Get := MemoryStore.Get, Set := MemoryStore.Set, Del := MemoryStore.Del }

/-! ## The whole request -/

/-- What the wrapped handler does, as far as the session goes: whether it writes to the
response at all, and the session as it is when the handler first writes (or, if it never
writes, when it returns). -/
structure Handled where
  atWrite : session
  writes : Bool

/-- The handler that `Middleware` returns, run on one request. `Middleware` does not call
`finalize` itself: it registers it with `nw.Before`, and the response writer runs that
hook when the wrapped handler first writes to the response. A handler that returns
without writing never triggers it, and then there is no store call and no cookie. The
result is the error the request panics with, or the session and the response at the
end. -/
def Sessions.Middleware (ss : Sessions σ γ) (h : session → Handled) (now : Time)
    (cookie : Option String) (w : ResponseWriter) (wd : World σ γ) :
    Except Error (session × ResponseWriter) × World σ γ :=
  match ss.newSession cookie wd with
  | (Except.error err, wd1) => (Except.error err, wd1)
  | (Except.ok s, wd1) =>
    if (h s).writes then
      match ss.finalize now w (h s).atWrite wd1 with
      | (some err, _, wd2, _) => (Except.error err, wd2)
      | (none, s2, wd2, w2) => (Except.ok (s2, w2), wd2)
    else (Except.ok ((h s).atWrite, w), wd1)

/-! ## Sequences of calls on the in-memory store -/

/-- A call of `Set` or `Del` on a store. -/
inductive StoreOp where
  | Set (key : String) (val : Bytes)
  | Del (key : String)

/-- The key a call is about. -/
def StoreOp.key (op : StoreOp) : String :=
  match op with
  | StoreOp.Set key _ => key
  | StoreOp.Del key => key

/-- The store after one call. -/
def MemoryStore.step (ms : MemoryStore) (op : StoreOp) : MemoryStore :=
  match op with
  | StoreOp.Set key val => (ms.Set key val).2
  | StoreOp.Del key => (ms.Del key).2

/-- The store after a sequence of calls, made from left to right. -/
def MemoryStore.run (ms : MemoryStore) (ops : List StoreOp) : MemoryStore :=
  ops.foldl MemoryStore.step ms

/-- The last call of a sequence that is about `key`, if there is one. -/
def lastOn (ops : List StoreOp) (key : String) : Option StoreOp :=
  ops.reverse.find? (fun op => decide (op.key = key))

/-- What the store contract lets `Get(key)` return after a sequence of calls on a store
that had no entry under `key`: the bytes of the most recent `Set(key, v)` if no
`Del(key)` followed it, and the empty result otherwise. -/
def expectedGet (ops : List StoreOp) (key : String) : Bytes :=
  match lastOn ops key with
  | some (StoreOp.Set _ v) => v
  | _ => []

/-! ## Handlers as sequences of calls -/

/-- A call of `Set` or `Del` on the session. -/
inductive Mutation where
  | Set (key : String) (val : Value)
  | Del (key : String)

/-- The session after one call. -/
def Mutation.apply (m : Mutation) (s : session) : session :=
  match m with
  | Mutation.Set key val => s.Set key val
  | Mutation.Del key => s.Del key

/-- The session after a sequence of calls, made from left to right. -/
def session.mutate (s : session) (ms : List Mutation) : session :=
  ms.foldl (fun acc m => m.apply acc) s

/-- The session after `AddFlash(val, vars...)` for each `val` of `vals`, from left to
right. -/
def session.AddFlashes (s : session) (vals : List Value) (vars : List String) :
    Option session :=
  match vals with
  | [] => some s
  | v :: rest =>
    match s.AddFlash v vars with
    | none => none
    | some s1 => session.AddFlashes s1 rest vars

/-- A call the handler makes on the session: `Set`, `Del`, `AddFlash` or `Flashes`, the
last two with their variadic key argument. -/
inductive Call where
  | Set (key : String) (val : Value)
  | Del (key : String)
  | AddFlash (val : Value) (vars : List String)
  | Flashes (vars : List String)

/-- The session after one call; `none` if the call panics. -/
def Call.apply (c : Call) (s : session) : Option session :=
  match c with
  | Call.Set key val => some (s.Set key val)
  | Call.Del key => some (s.Del key)
  | Call.AddFlash val vars => s.AddFlash val vars
  | Call.Flashes vars =>
    match s.Flashes vars with
    | none => none
    | some r => some r.2

/-- The session after a sequence of calls, made from left to right; `none` if one of
them panics. -/
def session.handle (s : session) (cs : List Call) : Option session :=
  match cs with
  | [] => some s
  | c :: rest =>
    match c.apply s with
    | none => none
    | some s1 => session.handle s1 rest

/-! ## Concrete managers and sessions, for evaluation -/

/-- A generator that hands out the identifiers of a list in turn, and the empty string
once the list is used up. -/
def listGenerator : List String → String × List String
  | [] => ("", [])
  | x :: rest => (x, rest)

/-- A stand-in for the gob encoder: a non-empty payload as long as the bag plus one. -/
def sampleEncode (m : sessionValues) : Except Error Bytes :=
  Except.ok (1 :: m.map (fun _ => 0))

/-- A stand-in for the gob decoder. -/
def sampleDecode (_b : Bytes) : Except Error sessionValues :=
  Except.ok []

/-- Two identifiers of the shape the default generator produces. -/
def sampleSid1 : String := "0123456789abcdef0123456789abcdef01234567"

/-- See `sampleSid1`. -/
def sampleSid2 : String := "89abcdef0123456789abcdef0123456789abcdef"

/-- A manager over the in-memory store with the default cookie name and policy. -/
def sampleManager : Sessions MemoryStore (List String) :=
  { Store := MemoryStore.asStore, CookieName := defaultCookieName, NoKeepEmpty := false,
    Path := "/", Domain := "", Expires := 0, Secure := false, HttpOnly := true,
    SidGenerator := listGenerator, SidValidator := sidValidator,
    gobEncode := sampleEncode, gobDecode := sampleDecode }

/-- A store whose backend is unreachable: every call returns an error. -/
def downStore : Store Unit :=
  { Get := fun u _ => (Except.error "connection refused", u),
    Set := fun u _ _ => (some "connection refused", u),
    Del := fun u _ => (some "connection refused", u) }

/-- The manager of `sampleManager` over the unreachable store. -/
def downManager : Sessions Unit (List String) :=
  { Store := downStore, CookieName := defaultCookieName, NoKeepEmpty := false,
    Path := "/", Domain := "", Expires := 0, Secure := false, HttpOnly := true,
    SidGenerator := listGenerator, SidValidator := sidValidator,
    gobEncode := sampleEncode, gobDecode := sampleDecode }

/-- An existing session with an empty bag and no flag set. -/
def sampleSession : session :=
  { sid := sampleSid1, values := [], isNew := false, changeId := false, expire := false,
    noStore := false, written := false, Path := "/", Domain := "", Expires := 0,
    Secure := false, HttpOnly := true }

/-- A new, written session with `changeId` and `noStore` set. -/
def noStoreSession : session :=
  { sampleSession with noStore := true, isNew := true, written := true, changeId := true }

/-- A world in which the in-memory store holds one entry, under `sampleSid1`. -/
def sampleWorld : World MemoryStore (List String) :=
  { store := [(sampleSid1, [1])], gen := [sampleSid2], calls := [] }

/-- A world over the unreachable store. -/
def downWorld : World Unit (List String) :=
  { store := (), gen := [sampleSid2], calls := [] }

/-- A new session that the handler has not touched, with `noStore` set. -/
def freshNoStoreSession : session :=
  { sampleSession with noStore := true, isNew := true }

/-- The session that `downManager` constructs for a request without a cookie when the
generator hands out `sampleSid2`. -/
def downFresh : session :=
  { sid := sampleSid2, values := [], isNew := true, changeId := false, expire := false,
    noStore := false, written := false, Path := "/", Domain := "", Expires := 0,
    Secure := false, HttpOnly := true }

/-- An existing session holding one key, with `expire` and `changeId` both set. -/
def expireSession : session :=
  { sampleSession with
    values := [("username", Value.str "foo")], expire := true, changeId := true }

/-- An existing session holding one key that the handler has written, with `changeId`
set. -/
def rotateSession : session :=
  { sampleSession with
    values := [("username", Value.str "foo")], written := true, changeId := true }

/-- An existing, unwritten session holding a flash list under the key `notice` and one
other key. -/
def flashSession : session :=
  { sampleSession with
    values := [("notice", Value.slice [Value.str "saved"]), ("username", Value.str "foo")] }

/-- A stand-in for the hash: the first 20 bytes of the input, padded with zeros. -/
def sampleSha1 : Sha1 :=
  { sum := fun b => (b ++ List.replicate 20 0).take 20,
    size := fun b => by simp }

/-- The manager that `New(NewMemoryStore())` and `Middleware` set up: default cookie name,
default generator and validator, zero values elsewhere. -/
def defaultManager (sha1 : Sha1) (enc : sessionValues → Except Error Bytes)
    (dec : Bytes → Except Error sessionValues) : Sessions MemoryStore Rand :=
  { Store := MemoryStore.asStore, CookieName := defaultCookieName, NoKeepEmpty := false,
    Path := "", Domain := "", Expires := 0, Secure := false, HttpOnly := false,
    SidGenerator := sidGenerator sha1, SidValidator := sidValidator,
    gobEncode := enc, gobDecode := dec }

/-- The bytes of a string, for strings of characters below 256. -/
def strBytes (s : String) : Bytes := s.data.map (fun c => UInt8.ofNat c.toNat)

/-- The string of a sequence of bytes; see `strBytes`. -/
def bytesStr (b : Bytes) : String := String.mk (b.map (fun x => Char.ofNat x.toNat))

/-- The entries of a bag as `strEncode` writes them: for each entry the length of the
key, the key, the length of the value and the value. The encoder knows string values
only and fails on a value of any other type. -/
def strEncodeEntries : sessionValues → Except Error Bytes
  | [] => Except.ok []
  | (k, Value.str v) :: rest =>
    match strEncodeEntries rest with
    | Except.error err => Except.error err
    | Except.ok bs =>
      Except.ok (UInt8.ofNat k.length :: strBytes k ++ UInt8.ofNat v.length :: strBytes v ++ bs)
  | _ :: _ => Except.error "gob: type not registered for interface"

/-- A stand-in for the gob encoder that a stand-in decoder can read back: a header byte,
then the entries. -/
def strEncode (m : sessionValues) : Except Error Bytes :=
  match strEncodeEntries m with
  | Except.error err => Except.error err
  | Except.ok bs => Except.ok (1 :: bs)

/-- The entries that `strEncodeEntries` wrote, read back; `fuel` bounds their number. -/
def strDecodeEntries (fuel : Nat) (bs : Bytes) : Except Error sessionValues :=
  match fuel, bs with
  | _, [] => Except.ok []
  | 0, _ :: _ => Except.error "unexpected EOF"
  | fuel + 1, klen :: rest =>
    match rest.drop klen.toNat with
    | [] => Except.error "unexpected EOF"
    | vlen :: rest2 =>
      match strDecodeEntries fuel (rest2.drop vlen.toNat) with
      | Except.error err => Except.error err
      | Except.ok m =>
        Except.ok ((bytesStr (rest.take klen.toNat),
          Value.str (bytesStr (rest2.take vlen.toNat))) :: m)

/-- The stand-in decoder for `strEncode`. -/
def strDecode (bs : Bytes) : Except Error sessionValues :=
  match bs with
  | 1 :: rest => strDecodeEntries rest.length rest
  | _ => Except.error "gob: unknown type id or corrupted data"

/-- The manager of `sampleManager` with the codec `strEncode`, `strDecode`. -/
def strManager : Sessions MemoryStore (List String) :=
  { sampleManager with gobEncode := strEncode, gobDecode := strDecode }

/-- The manager of `sampleManager` under the no-keep-empty policy. -/
def noKeepManager : Sessions MemoryStore (List String) :=
  { sampleManager with NoKeepEmpty := true }

/-- A new in-memory world in which `rand.Read` fails. -/
def noEntropyWorld : World MemoryStore Rand :=
  { store := NewMemoryStore, gen := [none], calls := [] }

/-- The session `Middleware` constructs in `noEntropyWorld` for a request without a
cookie. -/
def emptySidSession : session :=
  { sid := "", values := [], isNew := true, changeId := false, expire := false,
    noStore := false, written := false, Path := "", Domain := "", Expires := 0,
    Secure := false, HttpOnly := false }

/-- An existing session in which the handler has set a key to a value of a type that
is not registered with the codec. -/
def unencodableSession : session :=
  sampleSession.Set "user" (Value.other "main.User")

/-- A world in which the in-memory store holds, under `sampleSid1`, the payload that
`strEncode` writes for a bag with one string value. -/
def storedWorld : World MemoryStore (List String) :=
  { store := [(sampleSid1, [1, 8, 117, 115, 101, 114, 110, 97, 109, 101, 3, 102, 111, 111])],
    gen := [sampleSid2], calls := [] }

/-- The session that `strManager` constructs in `storedWorld` for the cookie value
`sampleSid1`. -/
def loadedSession : session :=
  { sampleSession with values := [("username", Value.str "foo")] }

/-- A world in which the in-memory store holds, under `sampleSid1`, a payload that
`strDecode` cannot read. -/
def corruptWorld : World MemoryStore (List String) :=
  { store := [(sampleSid1, [7, 7])], gen := [sampleSid2], calls := [] }

/-- An existing session with `changeId` set in which the handler has set a key to a value
of a type that is not registered with the codec. -/
def unencodableRotateSession : session :=
  { sampleSession with
    values := [("user", Value.other "main.User")], written := true, changeId := true }

/-! ## Lemmas on maps -/

theorem GoMap.get_delete_self {β : Type} (m : GoMap β) (key : String) :
    (m.delete key).get key = none := by
  induction m with
  | nil => rfl
  | cons e rest ih =>
    obtain ⟨k, v⟩ := e
    by_cases h : k = key
    · simp [GoMap.delete, h, ih]
    · simp [GoMap.delete, GoMap.get, h, ih]

theorem GoMap.get_delete_other {β : Type} (m : GoMap β) (key k1 : String) (hne : k1 ≠ key) :
    (m.delete key).get k1 = m.get k1 := by
  induction m with
  | nil => rfl
  | cons e rest ih =>
    obtain ⟨k, v⟩ := e
    by_cases h : k = key
    · have hk : ¬ k = k1 := fun h1 => hne (h1.symm.trans h)
      simp only [GoMap.delete, GoMap.get, h, if_true, ih]
      rw [if_neg (fun h2 => hne h2.symm)]
    · by_cases h1 : k = k1
      · subst h1
        simp only [GoMap.delete, GoMap.get, if_neg hne, if_true]
      · simp only [GoMap.delete, GoMap.get, h, h1, if_false, ih]

theorem GoMap.get_set_self {β : Type} (m : GoMap β) (key : String) (val : β) :
    (m.set key val).get key = some val := by
  induction m with
  | nil => simp [GoMap.set, GoMap.get]
  | cons e rest ih =>
    obtain ⟨k, v⟩ := e
    by_cases h : k = key
    · simp [GoMap.set, GoMap.get, h]
    · simp [GoMap.set, GoMap.get, h, ih]

theorem GoMap.get_set_other {β : Type} (m : GoMap β) (key k1 : String) (val : β)
    (hne : k1 ≠ key) : (m.set key val).get k1 = m.get k1 := by
  have hk : ¬ key = k1 := fun h1 => hne h1.symm
  induction m with
  | nil => simp [GoMap.set, GoMap.get, hk]
  | cons e rest ih =>
    obtain ⟨k, v⟩ := e
    by_cases h : k = key
    · simp only [GoMap.set, GoMap.get, h, if_true, if_neg hk,
        GoMap.get_delete_other _ _ _ hne]
    · by_cases h1 : k = k1
      · subst h1
        simp only [GoMap.set, GoMap.get, if_neg hne, if_true]
      · simp only [GoMap.set, GoMap.get, h, h1, if_false, ih]

/-! ## Lemmas on the store write -/

theorem session.needStore_of_noStore (ss : Sessions σ γ) (s : session)
    (h : s.noStore = true) : s.needStore ss = false := by
  simp [session.needStore, h]

theorem session.store_of_noStore (ss : Sessions σ γ) (s : session) (wd : World σ γ)
    (h : s.noStore = true) : s.store ss wd = (none, s, wd) := by
  simp [session.store, session.needStore_of_noStore ss s h]

theorem session.needSetCookie_iff (ss : Sessions σ γ) (s : session) :
    s.needSetCookie ss = true ↔
      (s.isNew = true ∧ ss.NoKeepEmpty = false ∧ s.values.len = 0) ∨
      (s.isNew = true ∧ s.written = true) ∨ s.expire = true ∨ s.changeId = true := by
  simp only [session.needSetCookie, session.HasKey]
  cases s.isNew <;> cases ss.NoKeepEmpty <;> cases s.written <;> cases s.expire <;>
    cases s.changeId <;> rcases Nat.eq_zero_or_pos s.values.len with h | h <;>
    simp [h, Nat.pos_iff_ne_zero.mp]

theorem session.needStore_iff (ss : Sessions σ γ) (s : session) :
    s.needStore ss = true ↔
      s.noStore = false ∧
      ((s.isNew = true ∧ ss.NoKeepEmpty = false ∧ s.values.len = 0) ∨
        s.written = true ∨ s.expire = true ∨ s.changeId = true) := by
  simp only [session.needStore, session.HasKey]
  cases s.noStore <;> cases s.isNew <;> cases ss.NoKeepEmpty <;> cases s.written <;>
    cases s.expire <;> cases s.changeId <;>
    rcases Nat.eq_zero_or_pos s.values.len with h | h <;>
    simp [h, Nat.pos_iff_ne_zero.mp]

theorem session.setCookie_eq (ss : Sessions σ γ) (s : session) (now : Time)
    (rw : ResponseWriter) :
    s.setCookie ss now rw =
      if s.needSetCookie ss = true then
        rw ++ [{ Name := ss.CookieName, Value := s.sid, Path := s.Path, Domain := s.Domain,
                 Expires := if s.expire = true then now else s.Expires,
                 Secure := s.Secure, HttpOnly := s.HttpOnly }]
      else rw := by
  unfold session.setCookie
  cases s.needSetCookie ss <;> cases s.expire <;> simp

/-! ## The claims -/

/-- C1: for a session with `noStore` set, whatever its other flags and the manager's
`NoKeepEmpty`, `session.store` and `finalize` return no error and leave the session (so its
identifier) and the world (the store contents, the generator and the trace of store calls,
to which nothing is added) as they were. -/
theorem finalize_noStore_frame (ss : Sessions σ γ) (now : Time) (rw : ResponseWriter)
    (s : session) (wd : World σ γ) (h : s.noStore = true) :
    s.store ss wd = (none, s, wd) ∧
    (ss.finalize now rw s wd).1 = none ∧
    (ss.finalize now rw s wd).2.1 = s ∧
    (ss.finalize now rw s wd).2.2.1 = wd := by
  have hs := session.store_of_noStore ss s wd h
  simp [Sessions.finalize, hs]

/-- Witness of C1: a new, written session with `changeId` and `noStore` set. -/
theorem finalize_noStore_frame_witness :
    noStoreSession.noStore = true ∧
    noStoreSession.store sampleManager sampleWorld = (none, noStoreSession, sampleWorld) ∧
    (sampleManager.finalize 0 [] noStoreSession sampleWorld).1 = none ∧
    (sampleManager.finalize 0 [] noStoreSession sampleWorld).2.1 = noStoreSession ∧
    (sampleManager.finalize 0 [] noStoreSession sampleWorld).2.2.1 = sampleWorld :=
  ⟨rfl, finalize_noStore_frame sampleManager 0 [] noStoreSession sampleWorld rfl⟩

/-- C2, counterexample: a new session that the handler left untouched except for setting
`noStore`, under the default policy: `finalize` hands one cookie, carrying the session
identifier, to the response. -/
theorem finalize_noStore_cookie_counterexample :
    freshNoStoreSession.noStore = true ∧
    (sampleManager.finalize 0 [] freshNoStoreSession sampleWorld).2.2.2 =
      [{ Name := "sessions", Value := sampleSid1, Path := "/", Domain := "", Expires := 0,
         Secure := false, HttpOnly := true }] := by
  decide

/-- C2, amended: for a session with `noStore` set, `finalize` returns no error and writes
a cookie exactly when the session is new, kept although empty, with an empty bag, or new
and written, or expiring, or changing its identifier; `noStore` does not enter the cookie
decision. The cookie carries the session identifier. -/
theorem finalize_noStore_cookie (ss : Sessions σ γ) (now : Time) (rw : ResponseWriter)
    (s : session) (wd : World σ γ) (h : s.noStore = true) :
    (ss.finalize now rw s wd).1 = none ∧
    (ss.finalize now rw s wd).2.2.2 =
      if (s.isNew = true ∧ ss.NoKeepEmpty = false ∧ s.values.len = 0) ∨
          (s.isNew = true ∧ s.written = true) ∨ s.expire = true ∨ s.changeId = true
      then
        rw ++ [{ Name := ss.CookieName, Value := s.sid, Path := s.Path, Domain := s.Domain,
                 Expires := if s.expire = true then now else s.Expires,
                 Secure := s.Secure, HttpOnly := s.HttpOnly }]
      else rw := by
  have hs := session.store_of_noStore ss s wd h
  simp only [Sessions.finalize, hs, session.setCookie_eq, session.needSetCookie_iff,
    true_and]

/-- Witness of C2, amended: an existing session with `noStore` set and one key written
gets no cookie. -/
theorem finalize_noStore_cookie_witness :
    (sampleSession.NoStore true).noStore = true ∧
    (sampleManager.finalize 0 [] ((sampleSession.NoStore true).Set "k" (Value.int 1))
      sampleWorld).2.2.2 = [] :=
  ⟨rfl, (finalize_noStore_cookie sampleManager 0 []
    ((sampleSession.NoStore true).Set "k" (Value.int 1)) sampleWorld rfl).2⟩

/-- C3, counterexample: the default policy over a store that cannot be reached. The
request has no cookie, the session is new and untouched; `finalize` calls `Store.Set`,
returns its error and writes no cookie. -/
theorem finalize_fresh_untouched_counterexample :
    downManager.NoKeepEmpty = false ∧
    downManager.newSession none downWorld =
      (Except.ok downFresh, { store := (), gen := [], calls := [] }) ∧
    downManager.finalize 0 [] downFresh { store := (), gen := [], calls := [] } =
      (some "connection refused", downFresh,
        { store := (), gen := [], calls := [StoreCall.set sampleSid2 [1]] }, []) :=
  ⟨rfl, rfl, rfl⟩

/-- C3, amended: a request without a cookie makes no store call and yields a new session
with the generator's next identifier, an empty bag and no flag set. If the handler leaves
it untouched: under `NoKeepEmpty` `finalize` makes no store call and writes no cookie;
otherwise it encodes the empty bag, calls `Store.Set` with that encoding under the
session's identifier and nothing else, and writes a cookie carrying the identifier exactly
when the call succeeds. If `Encode` or `Store.Set` fails, `finalize` returns the error and
writes no cookie. -/
theorem finalize_fresh_untouched (ss : Sessions σ γ) (now : Time) (rw : ResponseWriter)
    (wd : World σ γ) :
    ∃ s0 : session,
      ss.newSession none wd = (Except.ok s0, { wd with gen := (ss.SidGenerator wd.gen).2 }) ∧
      s0.sid = (ss.SidGenerator wd.gen).1 ∧ s0.values = [] ∧ s0.isNew = true ∧
      s0.written = false ∧ s0.noStore = false ∧ s0.expire = false ∧ s0.changeId = false ∧
      ss.finalize now rw s0 { wd with gen := (ss.SidGenerator wd.gen).2 } =
        if ss.NoKeepEmpty = true then
          (none, s0, { wd with gen := (ss.SidGenerator wd.gen).2 }, rw)
        else
          match ss.Encode [] with
          | Except.error err =>
            (some err, s0, { wd with gen := (ss.SidGenerator wd.gen).2 }, rw)
          | Except.ok b =>
            ((ss.Store.Set wd.store s0.sid b).1, s0,
              { store := (ss.Store.Set wd.store s0.sid b).2,
                gen := (ss.SidGenerator wd.gen).2,
                calls := wd.calls ++ [StoreCall.set s0.sid b] },
              if (ss.Store.Set wd.store s0.sid b).1 = none then
                rw ++ [{ Name := ss.CookieName, Value := s0.sid, Path := ss.Path,
                         Domain := ss.Domain, Expires := ss.Expires, Secure := ss.Secure,
                         HttpOnly := ss.HttpOnly }]
              else rw) := by
  refine ⟨_, rfl, rfl, rfl, rfl, rfl, rfl, rfl, rfl, ?_⟩
  cases hk : ss.NoKeepEmpty
  · cases he : ss.Encode [] with
    | error err =>
      simp [Sessions.finalize, session.store, session.needStore, session.HasKey, GoMap.len,
        hk, he]
    | ok b =>
      cases hset : (ss.Store.Set wd.store (ss.SidGenerator wd.gen).1 b).1 with
      | none =>
        simp [Sessions.finalize, session.store, session.needStore, session.HasKey, GoMap.len,
          hk, he, World.Set, hset, session.setCookie, session.needSetCookie]
      | some err =>
        simp [Sessions.finalize, session.store, session.needStore, session.HasKey, GoMap.len,
          hk, he, World.Set, hset]
  · simp [Sessions.finalize, session.store, session.needStore, session.HasKey, GoMap.len,
      hk, session.setCookie, session.needSetCookie]

/-- C4: for a session with `expire` set and `noStore` not set, whatever its other flags
(`changeId` included), `finalize` makes exactly one store call, `Store.Del` on the session's
identifier, returns that call's result, leaves the session (its identifier and bag) and the
generator as they were, and the only cookie it can write, which it writes when the call
succeeds, carries that same identifier and expires at the time of writing. -/
theorem finalize_expire (ss : Sessions σ γ) (now : Time) (rw : ResponseWriter)
    (s : session) (wd : World σ γ) (he : s.expire = true) (hn : s.noStore = false) :
    ss.finalize now rw s wd =
      ((ss.Store.Del wd.store s.sid).1, s,
        { store := (ss.Store.Del wd.store s.sid).2, gen := wd.gen,
          calls := wd.calls ++ [StoreCall.del s.sid] },
        if (ss.Store.Del wd.store s.sid).1 = none then
          rw ++ [{ Name := ss.CookieName, Value := s.sid, Path := s.Path,
                   Domain := s.Domain, Expires := now, Secure := s.Secure,
                   HttpOnly := s.HttpOnly }]
        else rw) := by
  have hneed : s.needStore ss = true := by
    rw [session.needStore_iff]
    exact ⟨hn, Or.inr (Or.inr (Or.inl he))⟩
  have hcookie : s.needSetCookie ss = true := by
    rw [session.needSetCookie_iff]
    exact Or.inr (Or.inr (Or.inl he))
  cases hdel : (ss.Store.Del wd.store s.sid).1 with
  | none =>
    simp [Sessions.finalize, session.store, hneed, he, World.Del, hdel,
      session.setCookie_eq, hcookie]
  | some err =>
    simp [Sessions.finalize, session.store, hneed, he, World.Del, hdel]

/-- Witness of C4: an existing session with `expire` and `changeId` both set, over the
in-memory store. -/
theorem finalize_expire_witness :
    expireSession.expire = true ∧ expireSession.noStore = false ∧
    sampleManager.finalize 7 [] expireSession sampleWorld =
      (none, expireSession,
        { store := [], gen := [sampleSid2], calls := [StoreCall.del sampleSid1] },
        [{ Name := "sessions", Value := sampleSid1, Path := "/", Domain := "", Expires := 7,
           Secure := false, HttpOnly := true }]) :=
  ⟨rfl, rfl, finalize_expire sampleManager 7 [] expireSession sampleWorld rfl rfl⟩

/-- C5, counterexample: a rotation over the in-memory store, whose operations never fail,
of a session whose bag the codec cannot encode. `finalize` deletes the entry under the old
identifier and replaces the session identifier, then returns the error of `Encode`: it
stores nothing under the new identifier and writes no cookie. -/
theorem finalize_changeId_counterexample :
    unencodableRotateSession.changeId = true ∧ unencodableRotateSession.expire = false ∧
    unencodableRotateSession.noStore = false ∧
    (∀ (ms : MemoryStore) (k : String) (v : Bytes),
      (strManager.Store.Set ms k v).1 = none ∧ (strManager.Store.Del ms k).1 = none) ∧
    strManager.finalize 0 [] unencodableRotateSession sampleWorld =
      (some "gob: type not registered for interface",
        { unencodableRotateSession with sid := sampleSid2 },
        { store := [], gen := [], calls := [StoreCall.del sampleSid1] }, []) :=
  ⟨rfl, rfl, rfl, fun _ _ _ => ⟨rfl, rfl⟩, rfl⟩

/-- C5, amended: for a session with `changeId` set and `expire` and `noStore` not set,
when `Store.Del` on the old identifier succeeds, the bag encodes to `b`, and `Store.Set` of
`b` under the generator's next output succeeds, `finalize` returns no error, makes exactly
the two store calls `Del old`, `Set new b` in that order, replaces the session identifier
by the generator's next output and changes nothing else of the session, and writes one
cookie, whose value is the new identifier. Over the in-memory store no entry is left under
the old identifier when the new one differs, and the entry under the new identifier is
`b`. When `Store.Del` succeeds and `Encode` rejects the bag, `finalize` has made the one
call `Del old` and replaced the session identifier; it makes no `Store.Set` call, returns
the error of `Encode` and writes no cookie. -/
theorem finalize_changeId :
    (∀ (σ γ : Type) (ss : Sessions σ γ) (now : Time) (rw : ResponseWriter) (s : session)
        (wd : World σ γ) (b : Bytes),
        s.changeId = true → s.expire = false → s.noStore = false →
        (ss.Store.Del wd.store s.sid).1 = none →
        ss.Encode s.values = Except.ok b →
        (ss.Store.Set (ss.Store.Del wd.store s.sid).2 (ss.SidGenerator wd.gen).1 b).1 = none →
        ss.finalize now rw s wd =
          (none, { s with sid := (ss.SidGenerator wd.gen).1 },
            { store := (ss.Store.Set (ss.Store.Del wd.store s.sid).2
                (ss.SidGenerator wd.gen).1 b).2,
              gen := (ss.SidGenerator wd.gen).2,
              calls := wd.calls ++
                [StoreCall.del s.sid, StoreCall.set (ss.SidGenerator wd.gen).1 b] },
            rw ++ [{ Name := ss.CookieName, Value := (ss.SidGenerator wd.gen).1,
                     Path := s.Path, Domain := s.Domain, Expires := s.Expires,
                     Secure := s.Secure, HttpOnly := s.HttpOnly }])) ∧
    (∀ (γ : Type) (ss : Sessions MemoryStore γ) (now : Time) (rw : ResponseWriter)
        (s : session) (wd : World MemoryStore γ) (b : Bytes),
        ss.Store = MemoryStore.asStore →
        s.changeId = true → s.expire = false → s.noStore = false →
        ss.Encode s.values = Except.ok b →
        GoMap.get (ss.finalize now rw s wd).2.2.1.store (ss.SidGenerator wd.gen).1 = some b ∧
        ((ss.SidGenerator wd.gen).1 ≠ s.sid →
          GoMap.get (ss.finalize now rw s wd).2.2.1.store s.sid = none)) ∧
    (∀ (σ γ : Type) (ss : Sessions σ γ) (now : Time) (rw : ResponseWriter) (s : session)
        (wd : World σ γ) (err : Error),
        s.changeId = true → s.expire = false → s.noStore = false →
        (ss.Store.Del wd.store s.sid).1 = none →
        ss.Encode s.values = Except.error err →
        ss.finalize now rw s wd =
          (some err, { s with sid := (ss.SidGenerator wd.gen).1 },
            { store := (ss.Store.Del wd.store s.sid).2, gen := (ss.SidGenerator wd.gen).2,
              calls := wd.calls ++ [StoreCall.del s.sid] }, rw)) := by
  have main : ∀ (σ γ : Type) (ss : Sessions σ γ) (now : Time) (rw : ResponseWriter)
      (s : session) (wd : World σ γ) (b : Bytes),
      s.changeId = true → s.expire = false → s.noStore = false →
      (ss.Store.Del wd.store s.sid).1 = none →
      ss.Encode s.values = Except.ok b →
      (ss.Store.Set (ss.Store.Del wd.store s.sid).2 (ss.SidGenerator wd.gen).1 b).1 = none →
      ss.finalize now rw s wd =
        (none, { s with sid := (ss.SidGenerator wd.gen).1 },
          { store := (ss.Store.Set (ss.Store.Del wd.store s.sid).2
              (ss.SidGenerator wd.gen).1 b).2,
            gen := (ss.SidGenerator wd.gen).2,
            calls := wd.calls ++
              [StoreCall.del s.sid, StoreCall.set (ss.SidGenerator wd.gen).1 b] },
          rw ++ [{ Name := ss.CookieName, Value := (ss.SidGenerator wd.gen).1,
                   Path := s.Path, Domain := s.Domain, Expires := s.Expires,
                   Secure := s.Secure, HttpOnly := s.HttpOnly }]) := by
    intro σ γ ss now rw s wd b hc he hn hdel henc hset
    have hneed : s.needStore ss = true := by
      rw [session.needStore_iff]
      exact ⟨hn, Or.inr (Or.inr (Or.inr hc))⟩
    rcases hD : ss.Store.Del wd.store s.sid with ⟨e, st⟩
    rw [hD] at hdel hset
    simp only at hdel hset
    subst hdel
    rcases hS : ss.Store.Set st (ss.SidGenerator wd.gen).1 b with ⟨e2, st2⟩
    rw [hS] at hset
    simp only at hset
    subst hset
    simp only [Sessions.Encode] at henc
    simp [Sessions.finalize, session.store, hneed, he, hc, World.Del, hD,
      session.sidRegenerate, Sessions.Encode, henc, World.Set, hS, session.setCookie_eq,
      session.needSetCookie_iff]
  refine ⟨main, ?_, ?_⟩
  · intro γ ss now rw s wd b hst hc he hn henc
    have hfin := main MemoryStore γ ss now rw s wd b hc he hn (by rw [hst]; rfl) henc
      (by rw [hst]; rfl)
    rw [hfin, hst]
    refine ⟨?_, ?_⟩
    · exact GoMap.get_set_self _ _ _
    · intro hne
      show GoMap.get (GoMap.set (GoMap.delete wd.store s.sid) _ b) s.sid = none
      rw [GoMap.get_set_other _ _ _ _ (Ne.symm hne), GoMap.get_delete_self]
  · intro σ γ ss now rw s wd err hc he hn hdel henc
    have hneed : s.needStore ss = true := by
      rw [session.needStore_iff]
      exact ⟨hn, Or.inr (Or.inr (Or.inr hc))⟩
    rcases hD : ss.Store.Del wd.store s.sid with ⟨e, st⟩
    rw [hD] at hdel
    simp only at hdel
    subst hdel
    simp only [Sessions.Encode] at henc
    simp [Sessions.finalize, session.store, hneed, he, hc, World.Del, hD,
      session.sidRegenerate, Sessions.Encode, henc]

/-- Witness of C5, amended: an existing session holding one key, written, with `changeId` set,
over the in-memory store with an entry under the old identifier. -/
theorem finalize_changeId_witness :
    rotateSession.changeId = true ∧ rotateSession.expire = false ∧
    rotateSession.noStore = false ∧
    sampleManager.finalize 0 [] rotateSession sampleWorld =
      (none, { rotateSession with sid := sampleSid2 },
        { store := [(sampleSid2, [1, 0])], gen := [],
          calls := [StoreCall.del sampleSid1, StoreCall.set sampleSid2 [1, 0]] },
        [{ Name := "sessions", Value := sampleSid2, Path := "/", Domain := "", Expires := 0,
           Secure := false, HttpOnly := true }]) :=
  ⟨rfl, rfl, rfl,
    finalize_changeId.1 MemoryStore (List String) sampleManager 0 [] rotateSession
      sampleWorld [1, 0] rfl rfl rfl rfl rfl rfl⟩

theorem session.mutate_flags (s : session) (ms : List Mutation) :
    (s.mutate ms).sid = s.sid ∧ (s.mutate ms).isNew = s.isNew ∧
    (s.mutate ms).expire = s.expire ∧ (s.mutate ms).changeId = s.changeId ∧
    (s.mutate ms).noStore = s.noStore := by
  induction ms generalizing s with
  | nil => exact ⟨rfl, rfl, rfl, rfl, rfl⟩
  | cons m rest ih =>
    have h := ih (m.apply s)
    cases m <;> exact h

theorem Sessions.finalize_cookies_of_existing (ss : Sessions σ γ) (now : Time)
    (rw : ResponseWriter) (s : session) (wd : World σ γ) (h1 : s.isNew = false)
    (h2 : s.expire = false) (h3 : s.changeId = false) :
    (ss.finalize now rw s wd).2.2.2 = rw := by
  have hc : s.needSetCookie ss = false := by
    cases h : s.needSetCookie ss with
    | false => rfl
    | true =>
      rw [session.needSetCookie_iff] at h
      simp [h1, h2, h3] at h
  have hset : s.setCookie ss now rw = rw := by
    rw [session.setCookie_eq, hc]
    rfl
  cases hneed : s.needStore ss with
  | false => simp [Sessions.finalize, session.store, hneed, hset]
  | true =>
    cases henc : ss.Encode s.values with
    | error err => simp [Sessions.finalize, session.store, hneed, h2, h3, henc]
    | ok b =>
      cases hS : (ss.Store.Set wd.store s.sid b).1 with
      | none => simp [Sessions.finalize, session.store, hneed, h2, h3, henc, World.Set, hS, hset]
      | some err => simp [Sessions.finalize, session.store, hneed, h2, h3, henc, World.Set, hS]

/-- C6: `needSetCookie` holds exactly when the session is new, the manager keeps empty
sessions and the bag is empty, or the session is new and written, or `expire` is set, or
`changeId` is set. So for an existing session with neither `expire` nor `changeId` set,
`finalize` leaves the response without a new cookie, whatever the bag, `written` and
`noStore` are, in particular after any sequence of `Set` and `Del` calls. -/
theorem needSetCookie_spec (ss : Sessions σ γ) (s : session) :
    (s.needSetCookie ss = true ↔
      (s.isNew = true ∧ ss.NoKeepEmpty = false ∧ s.values.len = 0) ∨
      (s.isNew = true ∧ s.written = true) ∨ s.expire = true ∨ s.changeId = true) ∧
    (s.isNew = false → s.expire = false → s.changeId = false →
      ∀ (now : Time) (rw : ResponseWriter) (wd : World σ γ),
        (ss.finalize now rw s wd).2.2.2 = rw ∧
        ∀ ms : List Mutation, (ss.finalize now rw (s.mutate ms) wd).2.2.2 = rw) := by
  refine ⟨session.needSetCookie_iff ss s, ?_⟩
  intro h1 h2 h3 now rw wd
  refine ⟨Sessions.finalize_cookies_of_existing ss now rw s wd h1 h2 h3, ?_⟩
  intro ms
  obtain ⟨_, hn, he, hc, _⟩ := session.mutate_flags s ms
  exact Sessions.finalize_cookies_of_existing ss now rw (s.mutate ms) wd (hn.trans h1)
    (he.trans h2) (hc.trans h3)

/-- Witness of C6: an existing session in which the handler sets one key and deletes
another gets no cookie. -/
theorem needSetCookie_spec_witness :
    sampleSession.isNew = false ∧ sampleSession.expire = false ∧
    sampleSession.changeId = false ∧
    (sampleManager.finalize 0 []
      (sampleSession.mutate [Mutation.Set "counter" (Value.int 1), Mutation.Del "other"])
      sampleWorld).2.2.2 = [] :=
  ⟨rfl, rfl, rfl,
    ((needSetCookie_spec sampleManager sampleSession).2 rfl rfl rfl 0 [] sampleWorld).2
      [Mutation.Set "counter" (Value.int 1), Mutation.Del "other"]⟩

/-- C7: after a sequence of `Set` and `Del` calls on a session whose `written` is false,
`written` is true exactly when the sequence is not empty; `Del` sets `written` whether or
not the key is in the bag, so also when it is absent. -/
theorem written_iff_called (s : session) (ms : List Mutation) (h : s.written = false) :
    ((s.mutate ms).written = true ↔ ms ≠ []) ∧
    (∀ key : String, s.values.get key = none →
      (s.Del key).written = true ∧ (s.Del key).values.get key = none) := by
  refine ⟨?_, ?_⟩
  · cases ms with
    | nil => simp [session.mutate, h]
    | cons m rest =>
      have hw : ∀ (l : List Mutation) (t : session), t.written = true →
          (t.mutate l).written = true := by
        intro l
        induction l with
        | nil => intro t ht; exact ht
        | cons m1 l1 ih =>
          intro t _
          apply ih (m1.apply t)
          cases m1 <;> rfl
      have h1 : (m.apply s).written = true := by cases m <;> rfl
      simp only [ne_eq, reduceCtorEq, not_false_eq_true, iff_true]
      exact hw rest (m.apply s) h1
  · intro key _
    exact ⟨rfl, GoMap.get_delete_self _ _⟩

/-- Witness of C7: on a freshly constructed session, a single `Del` of a key the bag
does not hold sets `written`, and no call at all leaves it false. -/
theorem written_iff_called_witness :
    downFresh.written = false ∧
    (downFresh.mutate [Mutation.Del "absent"]).written = true ∧
    ¬ ((downFresh.mutate []).written = true) :=
  ⟨rfl,
    ((written_iff_called downFresh [Mutation.Del "absent"] rfl).1).2 (by simp),
    fun hw => ((written_iff_called downFresh [] rfl).1).1 hw rfl⟩

theorem session.AddFlashes_of_slice (vars : List String) (vals : List Value) :
    ∀ (s : session) (pre : List Value),
      s.values.get (flashKey vars) = some (Value.slice pre) →
      ∃ s1, s.AddFlashes vals vars = some s1 ∧
        s1.values.get (flashKey vars) = some (Value.slice (pre ++ vals)) := by
  induction vals with
  | nil =>
    intro s pre h
    exact ⟨s, rfl, by simpa using h⟩
  | cons v rest ih =>
    intro s pre h
    have hadd : s.AddFlash v vars = some { s with
        values := s.values.set (flashKey vars) (Value.slice (pre ++ [v])),
        written := true } := by
      simp [session.AddFlash, h]
    obtain ⟨s1, h1, h2⟩ := ih
      { s with values := s.values.set (flashKey vars) (Value.slice (pre ++ [v])),
               written := true }
      (pre ++ [v]) (GoMap.get_set_self s.values (flashKey vars) _)
    refine ⟨s1, ?_, ?_⟩
    · simp only [session.AddFlashes, hadd]
      exact h1
    · simpa using h2

theorem session.AddFlashes_of_absent (vars : List String) (vals : List Value) (s : session)
    (h : s.values.get (flashKey vars) = none) :
    ∃ s1, s.AddFlashes vals vars = some s1 ∧
      (vals = [] → s1 = s) ∧
      (vals ≠ [] → s1.values.get (flashKey vars) = some (Value.slice vals)) := by
  cases vals with
  | nil => exact ⟨s, rfl, fun _ => rfl, fun hne => absurd rfl hne⟩
  | cons v rest =>
    have hadd : s.AddFlash v vars = some { s with
        values := s.values.set (flashKey vars) (Value.slice [v]), written := true } := by
      simp [session.AddFlash, h]
    obtain ⟨s1, h1, h2⟩ := session.AddFlashes_of_slice vars rest
      { s with values := s.values.set (flashKey vars) (Value.slice [v]), written := true }
      [v] (GoMap.get_set_self s.values (flashKey vars) (Value.slice [v]))
    refine ⟨s1, ?_, ?_, ?_⟩
    · simp only [session.AddFlashes, hadd]
      exact h1
    · intro hnil
      exact absurd hnil (by simp)
    · intro _
      simpa using h2

theorem session.Flashes_of_slice (s : session) (vars : List String) (fl : List Value)
    (h : s.values.get (flashKey vars) = some (Value.slice fl)) :
    s.Flashes vars =
      some (fl, { s with values := s.values.delete (flashKey vars), written := true }) := by
  simp [session.Flashes, h]

theorem session.Flashes_of_absent (s : session) (vars : List String)
    (h : s.values.get (flashKey vars) = none) : s.Flashes vars = some ([], s) := by
  simp [session.Flashes, h]

/-- C8: on a session whose bag has no entry under the flash key, `AddFlash(a)` then
`AddFlash(b)` then `Flashes()` returns `[a, b]` and the next `Flashes()` returns the empty
sequence; for any values added in turn, `Flashes` returns them all in the order added and
the next `Flashes` returns none; and after any `Flashes` that returns, the bag has no
entry under the key, so the same holds from there on. -/
theorem flashes_in_order (s : session) (vars : List String)
    (h : s.values.get (flashKey vars) = none) :
    (∀ a b : Value, ∃ s1 s2 s3 : session,
      s.AddFlash a vars = some s1 ∧ s1.AddFlash b vars = some s2 ∧
      s2.Flashes vars = some ([a, b], s3) ∧ s3.Flashes vars = some ([], s3)) ∧
    (∀ vals : List Value, ∃ s1 s2 : session,
      s.AddFlashes vals vars = some s1 ∧ s1.Flashes vars = some (vals, s2) ∧
      s2.Flashes vars = some ([], s2)) ∧
    (∀ (t t1 : session) (r : List Value), t.Flashes vars = some (r, t1) →
      t1.values.get (flashKey vars) = none) := by
  have general : ∀ vals : List Value, ∃ s1 s2 : session,
      s.AddFlashes vals vars = some s1 ∧ s1.Flashes vars = some (vals, s2) ∧
      s2.Flashes vars = some ([], s2) := by
    intro vals
    obtain ⟨s1, h1, hnil, hcons⟩ := session.AddFlashes_of_absent vars vals s h
    by_cases hv : vals = []
    · subst hv
      have hs1 : s1 = s := hnil rfl
      subst hs1
      exact ⟨s1, s1, h1, session.Flashes_of_absent s1 vars h,
        session.Flashes_of_absent s1 vars h⟩
    · refine ⟨s1, _, h1, session.Flashes_of_slice s1 vars vals (hcons hv), ?_⟩
      exact session.Flashes_of_absent _ vars (GoMap.get_delete_self _ _)
  refine ⟨?_, general, ?_⟩
  · intro a b
    obtain ⟨s2, s3, h1, h2, h3⟩ := general [a, b]
    cases ha : s.AddFlash a vars with
    | none => simp [session.AddFlashes, ha] at h1
    | some s1 =>
      refine ⟨s1, s2, s3, rfl, ?_, h2, h3⟩
      simp only [session.AddFlashes, ha] at h1
      cases hb : s1.AddFlash b vars with
      | none => simp [hb] at h1
      | some s2b =>
        simp only [hb, Option.some.injEq] at h1
        rw [h1]
  · intro t t1 r ht
    unfold session.Flashes at ht
    simp only at ht
    split at ht
    · simp only [Option.some.injEq, Prod.mk.injEq] at ht
      rw [← ht.2]
      exact GoMap.get_delete_self _ _
    · exact absurd ht (by simp)
    · simp only [Option.some.injEq, Prod.mk.injEq] at ht
      rw [← ht.2]
      assumption

/-- Witness of C8: the two flashes of the test, on a freshly constructed session and
with the default key. -/
theorem flashes_in_order_witness :
    downFresh.values.get (flashKey []) = none ∧
    ∃ s1 s2 s3 : session,
      downFresh.AddFlash (Value.str "hoge") [] = some s1 ∧
      s1.AddFlash (Value.str "fuga") [] = some s2 ∧
      s2.Flashes [] = some ([Value.str "hoge", Value.str "fuga"], s3) ∧
      s3.Flashes [] = some ([], s3) :=
  ⟨rfl, (flashes_in_order downFresh [] rfl).1 (Value.str "hoge") (Value.str "fuga")⟩

/-- C9: `Flashes` uses the key `"_flash"` when called without argument and its first
argument otherwise. When a list is stored under the key, `Flashes` returns that list,
removes the key from the bag, leaves every other key and every other field of the session
as it was, and sets `written`. When the key is absent it returns the empty sequence and
the session is unchanged, `written` included. -/
theorem flashes_consume (s : session) (vars : List String) :
    (flashKey [] = "_flash" ∧ ∀ (k : String) (rest : List String), flashKey (k :: rest) = k) ∧
    (∀ fl : List Value, s.values.get (flashKey vars) = some (Value.slice fl) →
      s.Flashes vars =
        some (fl, { s with values := s.values.delete (flashKey vars), written := true }) ∧
      (s.values.delete (flashKey vars)).get (flashKey vars) = none ∧
      ∀ k : String, k ≠ flashKey vars →
        (s.values.delete (flashKey vars)).get k = s.values.get k) ∧
    (s.values.get (flashKey vars) = none → s.Flashes vars = some ([], s)) := by
  refine ⟨⟨rfl, fun _ _ => rfl⟩, ?_, session.Flashes_of_absent s vars⟩
  intro fl h
  exact ⟨session.Flashes_of_slice s vars fl h, GoMap.get_delete_self _ _,
    fun k hk => GoMap.get_delete_other _ _ _ hk⟩

/-- Witness of C9: a bag holding a flash list under a key of the caller's and one other
key. -/
theorem flashes_consume_witness :
    flashSession.values.get (flashKey ["notice"]) = some (Value.slice [Value.str "saved"]) ∧
    flashSession.Flashes ["notice"] =
      some ([Value.str "saved"],
        { flashSession with values := [("username", Value.str "foo")], written := true }) :=
  ⟨rfl, ((flashes_consume flashSession ["notice"]).2.1 [Value.str "saved"] rfl).1⟩

theorem Regexp.iterate_flatMap_nil (f : Pos → List Pos) (n : Nat) :
    Nat.iterate (fun ps : List Pos => ps.flatMap f) n [] = [] := by
  induction n with
  | zero => rfl
  | succ n ih => rw [Function.iterate_succ_apply]; exact ih

theorem Regexp.run_times (r : Regexp) (n : Nat) (p : Pos) :
    (Regexp.times r n).run p = Nat.iterate (fun ps : List Pos => ps.flatMap r.run) n [p] := by
  rw [Regexp.run]

theorem Regexp.run_concat (a b : Regexp) (p : Pos) :
    (Regexp.concat a b).run p = (a.run p).flatMap b.run := by
  rw [Regexp.run]

theorem Regexp.run_charClass_nil (ranges : List (Char × Char)) (i : Nat) :
    (Regexp.charClass ranges).run (i, []) = [] := by
  rw [Regexp.run]

theorem Regexp.run_charClass_cons (ranges : List (Char × Char)) (i : Nat) (c : Char)
    (cs : List Char) :
    (Regexp.charClass ranges).run (i, c :: cs) =
      if inRanges ranges c = true then [(i + 1, cs)]
      else [] := by
  rw [Regexp.run]

theorem Regexp.run_times_charClass (ranges : List (Char × Char)) (n : Nat) :
    ∀ (i : Nat) (cs : List Char),
      (Regexp.times (Regexp.charClass ranges) n).run (i, cs) =
        if n ≤ cs.length ∧
            ∀ c ∈ cs.take n, inRanges ranges c = true
        then [(i + n, cs.drop n)] else [] := by
  induction n with
  | zero =>
    intro i cs
    simp [Regexp.run_times]
  | succ n ih =>
    intro i cs
    rw [Regexp.run_times, Function.iterate_succ_apply, List.flatMap_cons, List.flatMap_nil,
      List.append_nil]
    cases cs with
    | nil =>
      rw [Regexp.run_charClass_nil, Regexp.iterate_flatMap_nil]
      simp
    | cons c rest =>
      rw [Regexp.run_charClass_cons]
      by_cases hc : inRanges ranges c = true
      · rw [if_pos hc, ← Regexp.run_times, ih (i + 1) rest]
        simp only [List.take_succ_cons, List.length_cons, List.mem_cons, forall_eq_or_imp, hc,
          true_and, Nat.add_le_add_iff_right, List.drop_succ_cons, Nat.add_assoc,
          Nat.add_comm 1 n]
      · rw [if_neg hc, Regexp.iterate_flatMap_nil]
        rw [if_neg]
        intro hall
        exact hc (hall.2 c (by simp))

theorem inRanges_hex (c : Char) :
    inRanges [('0', '9'), ('a', 'f')] c = true ↔
      ('0' ≤ c ∧ c ≤ '9') ∨ ('a' ≤ c ∧ c ≤ 'f') := by
  simp [inRanges]

theorem Regexp.run_beginText (p : Pos) :
    Regexp.beginText.run p = if p.1 = 0 then [p] else [] := by
  rw [Regexp.run]

theorem Regexp.run_endText (p : Pos) :
    Regexp.endText.run p = if p.2.isEmpty = true then [p] else [] := by
  rw [Regexp.run]

theorem re_run (i : Nat) (cs : List Char) :
    re.run (i, cs) =
      if i = 0 ∧ cs.length = 40 ∧ ∀ c ∈ cs, inRanges [('0', '9'), ('a', 'f')] c = true
      then [(40, [])] else [] := by
  unfold re
  rw [Regexp.run_concat, Regexp.run_beginText]
  by_cases hi : i = 0
  · subst hi
    simp only [if_true, List.flatMap_cons, List.flatMap_nil, List.append_nil, true_and]
    rw [Regexp.run_concat, Regexp.run_times_charClass]
    by_cases hlen : cs.length = 40
    · have htake : cs.take 40 = cs := List.take_of_length_le (by omega)
      have hdrop : cs.drop 40 = [] := List.drop_of_length_le (by omega)
      rw [htake, hdrop]
      by_cases hall : ∀ c ∈ cs, inRanges [('0', '9'), ('a', 'f')] c = true
      · rw [if_pos ⟨by omega, hall⟩, if_pos ⟨hlen, hall⟩]
        simp [Regexp.run_endText]
      · rw [if_neg (fun h => hall h.2), if_neg (fun h => hall h.2)]
        rfl
    · have hR : (if cs.length = 40 ∧ ∀ c ∈ cs, inRanges [('0', '9'), ('a', 'f')] c = true
          then [((40 : Nat), ([] : List Char))] else []) = [] := if_neg (fun h => hlen h.1)
      rw [hR]
      by_cases hge : 40 ≤ cs.length
      · by_cases hall : ∀ c ∈ cs.take 40, inRanges [('0', '9'), ('a', 'f')] c = true
        · rw [if_pos ⟨hge, hall⟩]
          have hne : (cs.drop 40).isEmpty = false := by
            cases hd : cs.drop 40 with
            | nil =>
              have := congrArg List.length hd
              simp at this
              omega
            | cons _ _ => rfl
          simp [Regexp.run_endText, hne]
        · rw [if_neg (fun h => hall h.2)]
          rfl
      · rw [if_neg (fun h => hge h.1)]
        rfl
  · simp [hi]

theorem sidValidator_eq_true_iff (sid : String) :
    sidValidator sid = true ↔
      sid.length = 40 ∧ ∀ c ∈ sid.data, ('0' ≤ c ∧ c ≤ '9') ∨ ('a' ≤ c ∧ c ≤ 'f') := by
  unfold sidValidator Regexp.MatchString
  simp only [List.any_eq_true, List.mem_range, re_run]
  constructor
  · rintro ⟨i, _, hi⟩
    by_cases h : i = 0 ∧ (sid.data.drop i).length = 40 ∧
        ∀ c ∈ sid.data.drop i, inRanges [('0', '9'), ('a', 'f')] c = true
    · obtain ⟨h0, hlen, hall⟩ := h
      subst h0
      simp only [List.drop_zero] at hlen hall
      exact ⟨hlen, fun c hc => (inRanges_hex c).mp (hall c hc)⟩
    · rw [if_neg h] at hi
      simp at hi
  · rintro ⟨hlen, hall⟩
    refine ⟨0, by omega, ?_⟩
    have hlen2 : sid.data.length = 40 := hlen
    rw [if_pos ⟨rfl, by simpa using hlen2, fun c hc => (inRanges_hex c).mpr (hall c (by simpa using hc))⟩]
    rfl

theorem not_hex_of_upper (c : Char) (h1 : 'A' ≤ c) (h2 : c ≤ 'F') :
    ¬ (('0' ≤ c ∧ c ≤ '9') ∨ ('a' ≤ c ∧ c ≤ 'f')) := by
  have e1 : ∀ a b : Char, a ≤ b ↔ a.toNat ≤ b.toNat := fun a b => Iff.rfl
  rw [e1] at h1 h2
  rw [e1, e1, e1, e1]
  have a1 : ('A' : Char).toNat = 65 := rfl
  have a2 : ('F' : Char).toNat = 70 := rfl
  have a3 : ('0' : Char).toNat = 48 := rfl
  have a4 : ('9' : Char).toNat = 57 := rfl
  have a5 : ('a' : Char).toNat = 97 := rfl
  have a6 : ('f' : Char).toNat = 102 := rfl
  rw [a1] at h1
  rw [a2] at h2
  rw [a3, a4, a5, a6]
  omega

/-- C10: `sidValidator` accepts a string exactly when it has 40 characters, each in `0-9`
or `a-f`. So it rejects the empty string, every string of another length, every string
with an uppercase hex digit, and every accepted identifier followed by a newline. -/
theorem sidValidator_spec (sid : String) :
    (sidValidator sid = true ↔
      sid.length = 40 ∧ ∀ c ∈ sid.data, ('0' ≤ c ∧ c ≤ '9') ∨ ('a' ≤ c ∧ c ≤ 'f')) ∧
    sidValidator "" = false ∧
    (sid.length ≠ 40 → sidValidator sid = false) ∧
    ((∃ c ∈ sid.data, 'A' ≤ c ∧ c ≤ 'F') → sidValidator sid = false) ∧
    (sidValidator sid = true → sidValidator (sid ++ "\n") = false) := by
  have hfalse : ∀ t : String, ¬ (t.length = 40 ∧
      ∀ c ∈ t.data, ('0' ≤ c ∧ c ≤ '9') ∨ ('a' ≤ c ∧ c ≤ 'f')) → sidValidator t = false := by
    intro t ht
    cases hv : sidValidator t with
    | false => rfl
    | true => exact absurd ((sidValidator_eq_true_iff t).mp hv) ht
  refine ⟨sidValidator_eq_true_iff sid, ?_, ?_, ?_, ?_⟩
  · exact hfalse "" (fun h => absurd h.1 (by decide))
  · intro hlen
    exact hfalse sid (fun h => hlen h.1)
  · rintro ⟨c, hc, hA, hF⟩
    exact hfalse sid (fun h => not_hex_of_upper c hA hF (h.2 c hc))
  · intro hv
    have hlen := ((sidValidator_eq_true_iff sid).mp hv).1
    apply hfalse
    intro h
    have h1 := h.1
    rw [String.length_append] at h1
    have h2 : ("\n" : String).length = 1 := rfl
    omega

/-- Witness of C10: an identifier of the generator's shape is accepted, and rejected
once a newline follows it or once one digit is in upper case. -/
theorem sidValidator_spec_witness :
    sidValidator sampleSid1 = true ∧ sidValidator (sampleSid1 ++ "\n") = false ∧
    sidValidator "0123456789ABCDEF0123456789abcdef01234567" = false ∧
    sidValidator "0123456789abcdef0123456789abcdef0123456" = false :=
  ⟨by decide, (sidValidator_spec sampleSid1).2.2.2.2 (by decide),
    (sidValidator_spec "0123456789ABCDEF0123456789abcdef01234567").2.2.2.1
      ⟨'A', by decide, by decide, by decide⟩,
    (sidValidator_spec "0123456789abcdef0123456789abcdef0123456").2.2.1 (by decide)⟩

theorem hexDigit_lower (n : Nat) (h : n < 16) :
    ('0' ≤ hexDigit n ∧ hexDigit n ≤ '9') ∨ ('a' ≤ hexDigit n ∧ hexDigit n ≤ 'f') := by
  revert n
  decide

theorem sprintfHex_length (b : Bytes) : (sprintfHex b).length = 2 * b.length := by
  show (b.flatMap _).length = 2 * b.length
  induction b with
  | nil => rfl
  | cons x rest ih =>
    rw [List.flatMap_cons, List.length_append, ih]
    simp only [List.length_cons, List.length_nil]
    omega

theorem sprintfHex_lower (b : Bytes) :
    ∀ c ∈ (sprintfHex b).data, ('0' ≤ c ∧ c ≤ '9') ∨ ('a' ≤ c ∧ c ≤ 'f') := by
  intro c hc
  have hc1 : c ∈ b.flatMap (fun x => [hexDigit (x.toNat / 16), hexDigit (x.toNat % 16)]) := hc
  rw [List.mem_flatMap] at hc1
  obtain ⟨x, _, hx⟩ := hc1
  have hlt : x.toNat < 256 := x.val.isLt
  simp only [List.mem_cons, List.mem_singleton, List.mem_nil_iff, or_false] at hx
  rcases hx with h | h
  · rw [h]
    exact hexDigit_lower _ (by omega)
  · rw [h]
    exact hexDigit_lower _ (Nat.mod_lt _ (by decide))

theorem sidValidator_sprintfHex (b : Bytes) (h : b.length = 20) :
    sidValidator (sprintfHex b) = true := by
  rw [sidValidator_eq_true_iff]
  refine ⟨?_, sprintfHex_lower b⟩
  rw [sprintfHex_length, h]

/-- C11: when `rand.Read` fills the buffer, `sidGenerator` returns the `%x` rendering of
the digest of those bytes: the digest has 20 bytes, the rendering has 40 characters, each
in `0-9` or `a-f`, and `sidValidator` accepts it, whatever the random bytes and whatever
the hash function computes. -/
theorem sidGenerator_accepted (sha1 : Sha1) (b : Block32) (rest : Rand) :
    sidGenerator sha1 (some b :: rest) = (sprintfHex (sha1.sum b.1), rest) ∧
    (sha1.sum b.1).length = 20 ∧
    (sidGenerator sha1 (some b :: rest)).1.length = 40 ∧
    (∀ c ∈ (sidGenerator sha1 (some b :: rest)).1.data,
      ('0' ≤ c ∧ c ≤ '9') ∨ ('a' ≤ c ∧ c ≤ 'f')) ∧
    sidValidator (sidGenerator sha1 (some b :: rest)).1 = true := by
  have h0 : sidGenerator sha1 (some b :: rest) = (sprintfHex (sha1.sum b.1), rest) := rfl
  rw [h0]
  refine ⟨rfl, sha1.size _, ?_, sprintfHex_lower _, sidValidator_sprintfHex _ (sha1.size _)⟩
  rw [sprintfHex_length, sha1.size]

theorem GoMap.delete_of_absent {β : Type} (m : GoMap β) (key : String)
    (h : m.get key = none) : m.delete key = m := by
  induction m with
  | nil => rfl
  | cons e rest ih =>
    obtain ⟨k, v⟩ := e
    by_cases hk : k = key
    · simp [GoMap.get, hk] at h
    · simp only [GoMap.get, hk, if_false] at h
      simp only [GoMap.delete, hk, if_false, ih h]

theorem lastOn_append_singleton (l : List StoreOp) (a : StoreOp) (key : String) :
    lastOn (l ++ [a]) key = if a.key = key then some a else lastOn l key := by
  unfold lastOn
  rw [List.reverse_append, List.reverse_singleton, List.singleton_append, List.find?_cons]
  by_cases h : a.key = key <;> simp [h]

theorem MemoryStore.get_run (ms : MemoryStore) (ops : List StoreOp) (key : String) :
    GoMap.get (ms.run ops) key =
      match lastOn ops key with
      | some (StoreOp.Set _ v) => some v
      | some (StoreOp.Del _) => none
      | none => GoMap.get ms key := by
  induction ops using List.reverseRecOn with
  | nil => rfl
  | append_singleton l a ih =>
    have hrun : ms.run (l ++ [a]) = (ms.run l).step a := by
      simp [MemoryStore.run, List.foldl_append]
    rw [hrun, lastOn_append_singleton]
    by_cases h : a.key = key
    · rw [if_pos h]
      cases a with
      | Set k v =>
        have hk : k = key := h
        subst hk
        exact GoMap.get_set_self _ _ _
      | Del k =>
        have hk : k = key := h
        subst hk
        exact GoMap.get_delete_self _ _
    · rw [if_neg h, ← ih]
      cases a with
      | Set k v => exact GoMap.get_set_other _ _ _ _ (fun e => h e.symm)
      | Del k => exact GoMap.get_delete_other _ _ _ (fun e => h e.symm)
/-- C12: on the in-memory store, after any sequence of `Set` and `Del` calls, `Get(k)`
returns no error and the bytes of the last `Set(k, v)` if no `Del(k)` came after it, the
empty result if the last call on `k` was a `Del` or, on a new store, if there was none,
and whatever the store held under `k` before if no call was on `k`. `Get` leaves the
store as it is. `Set` over an entry replaces it, `Del` never fails and leaves a store
without the key as it is, and a `Set` or `Del` on `k` changes no `Get` of another key. -/
theorem memoryStore_contract :
    (∀ (ops : List StoreOp) (key : String),
      (NewMemoryStore.run ops).Get key =
        (Except.ok (expectedGet ops key), NewMemoryStore.run ops)) ∧
    (∀ (ms : MemoryStore) (ops : List StoreOp) (key : String),
      (ms.run ops).Get key =
        (match lastOn ops key with
          | some (StoreOp.Set _ v) => Except.ok v
          | some (StoreOp.Del _) => Except.ok []
          | none => (ms.Get key).1, ms.run ops)) ∧
    (∀ (ms : MemoryStore) (key : String) (v v1 : Bytes),
      (ms.Set key v).1 = none ∧
      ((ms.Set key v).2.Set key v1).2.Get key =
        (Except.ok v1, ((ms.Set key v).2.Set key v1).2)) ∧
    (∀ (ms : MemoryStore) (key : String),
      (ms.Del key).1 = none ∧ (GoMap.get ms key = none → ms.Del key = (none, ms))) ∧
    (∀ (ms : MemoryStore) (key k1 : String) (v : Bytes), k1 ≠ key →
      ((ms.Set key v).2.Get k1).1 = (ms.Get k1).1 ∧
      ((ms.Del key).2.Get k1).1 = (ms.Get k1).1) := by
  have general : ∀ (ms : MemoryStore) (ops : List StoreOp) (key : String),
      (ms.run ops).Get key =
        (match lastOn ops key with
          | some (StoreOp.Set _ v) => Except.ok v
          | some (StoreOp.Del _) => Except.ok []
          | none => (ms.Get key).1, ms.run ops) := by
    intro ms ops key
    have h := MemoryStore.get_run ms ops key
    unfold MemoryStore.Get
    rw [h]
    cases hl : lastOn ops key with
    | none => cases hg : GoMap.get ms key <;> simp
    | some op => cases op <;> simp
  refine ⟨?_, general, ?_, ?_, ?_⟩
  · intro ops key
    rw [general, expectedGet]
    cases hl : lastOn ops key with
    | none => rfl
    | some op => cases op <;> rfl
  · intro ms key v v1
    refine ⟨rfl, ?_⟩
    simp [MemoryStore.Get, MemoryStore.Set, GoMap.get_set_self]
  · intro ms key
    refine ⟨rfl, fun h => ?_⟩
    simp [MemoryStore.Del, GoMap.delete_of_absent ms key h]
  · intro ms key k1 v hne
    simp only [MemoryStore.Get, MemoryStore.Set, MemoryStore.Del,
      GoMap.get_set_other _ _ _ _ hne, GoMap.get_delete_other _ _ _ hne]
    cases GoMap.get ms k1 <;> exact ⟨rfl, rfl⟩

/-- Witness of C12: the calls of `TestMemoryStore`, then a `Del` of a key that is not
there, on a store holding one other entry. -/
theorem memoryStore_contract_witness :
    ((NewMemoryStore.run [StoreOp.Set "hoge" [102, 117, 103, 97]]).Get "hoge").1 =
      Except.ok [102, 117, 103, 97] ∧
    ((NewMemoryStore.run [StoreOp.Set "hoge" [102, 117, 103, 97], StoreOp.Del "hoge"]).Get
      "hoge").1 = Except.ok [] ∧
    MemoryStore.Del [("other", [1])] "hoge" = (none, [("other", [1])]) ∧
    ((MemoryStore.Set [("other", [1])] "hoge" [2]).2.Get "other").1 =
      (MemoryStore.Get [("other", [1])] "other").1 :=
  ⟨congrArg Prod.fst (memoryStore_contract.1 [StoreOp.Set "hoge" [102, 117, 103, 97]] "hoge"),
    congrArg Prod.fst (memoryStore_contract.1
      [StoreOp.Set "hoge" [102, 117, 103, 97], StoreOp.Del "hoge"] "hoge"),
    (memoryStore_contract.2.2.2.1 [("other", [1])] "hoge").2 rfl,
    (memoryStore_contract.2.2.2.2 [("other", [1])] "hoge" "other" [2] (by decide)).1⟩

theorem Sessions.finalize_persisted (ss : Sessions σ γ) (now : Time) (rw : ResponseWriter)
    (s : session) (wd : World σ γ) (p : Bytes) (he : s.expire = false)
    (hneed : s.needStore ss = true) (henc : ss.Encode s.values = Except.ok p)
    (hfin : (ss.finalize now rw s wd).1 = none) :
    ∃ st0 : σ,
      (ss.Store.Set st0 (ss.finalize now rw s wd).2.1.sid p).1 = none ∧
      (ss.finalize now rw s wd).2.2.1.store =
        (ss.Store.Set st0 (ss.finalize now rw s wd).2.1.sid p).2 ∧
      (ss.finalize now rw s wd).2.1.values = s.values := by
  simp only [Sessions.Encode] at henc
  cases hc : s.changeId with
  | false =>
    cases hS : (ss.Store.Set wd.store s.sid p).1 with
    | none =>
      refine ⟨wd.store, ?_, ?_, ?_⟩ <;>
        simp [Sessions.finalize, session.store, hneed, he, hc, Sessions.Encode, henc,
          World.Set, hS]
    | some err =>
      simp [Sessions.finalize, session.store, hneed, he, hc, Sessions.Encode, henc,
        World.Set, hS] at hfin
  | true =>
    rcases hD : ss.Store.Del wd.store s.sid with ⟨e, st⟩
    cases e with
    | some err =>
      simp [Sessions.finalize, session.store, hneed, he, hc, World.Del, hD] at hfin
    | none =>
      cases hS : (ss.Store.Set st (ss.SidGenerator wd.gen).1 p).1 with
      | none =>
        refine ⟨st, ?_, ?_, ?_⟩ <;>
          simp [Sessions.finalize, session.store, hneed, he, hc, World.Del, hD,
            session.sidRegenerate, Sessions.Encode, henc, World.Set, hS]
      | some err =>
        simp [Sessions.finalize, session.store, hneed, he, hc, World.Del, hD,
          session.sidRegenerate, Sessions.Encode, henc, World.Set, hS] at hfin

theorem Sessions.newSession_of_entry (ss : Sessions σ γ) (wd : World σ γ) (sid : String)
    (p : Bytes) (b : sessionValues) (hv : ss.SidValidator sid = true) (hne : sid ≠ "")
    (hget : (ss.Store.Get wd.store sid).1 = Except.ok p) (hp : p ≠ [])
    (hdec : ss.Decode p = Except.ok b) :
    ss.newSession (some sid) wd =
      (Except.ok
        { sid := sid, values := b, isNew := false, changeId := false, expire := false,
          noStore := false, written := false, Path := ss.Path, Domain := ss.Domain,
          Expires := ss.Expires, Secure := ss.Secure, HttpOnly := ss.HttpOnly },
        { store := (ss.Store.Get wd.store sid).2, gen := wd.gen,
          calls := wd.calls ++ [StoreCall.get sid] }) := by
  have hlen : ¬ p.length = 0 := fun h => hp (List.length_eq_zero.mp h)
  simp only [Sessions.Decode] at hdec
  simp [Sessions.newSession, Sessions.getSessionValues, hv, World.Get, hget, hlen,
    Sessions.Decode, hdec, hne]

/-- C13: let the validator reject the empty string, as every validator has to, and let
`finalize` persist a session (`noStore` and `expire` not set, store write required, no
error) whose bag `b` encodes to a non-empty payload that decodes to `b` again, over a
store where a `Get` after a successful `Set` of the same key returns what was set. If the
identifier `X` the session ends with is accepted by the validator, the pre-handler phase
of a request with cookie value `X` in the world `finalize` leaves makes one `Get` call
and yields an existing session with identifier `X`, bag `b` and no flag set. -/
theorem persist_then_load (ss : Sessions σ γ) (now : Time) (rw : ResponseWriter)
    (s : session) (wd : World σ γ) (p : Bytes)
    (hempty : ss.SidValidator "" = false)
    (_hns : s.noStore = false) (he : s.expire = false) (hneed : s.needStore ss = true)
    (henc : ss.Encode s.values = Except.ok p) (hp : p ≠ [])
    (hdec : ss.Decode p = Except.ok s.values)
    (hstore : ∀ (st : σ) (k : String) (v : Bytes), (ss.Store.Set st k v).1 = none →
      (ss.Store.Get (ss.Store.Set st k v).2 k).1 = Except.ok v)
    (hfin : (ss.finalize now rw s wd).1 = none)
    (hX : ss.SidValidator (ss.finalize now rw s wd).2.1.sid = true) :
    ss.newSession (some (ss.finalize now rw s wd).2.1.sid) (ss.finalize now rw s wd).2.2.1 =
      (Except.ok
        { sid := (ss.finalize now rw s wd).2.1.sid, values := s.values, isNew := false,
          changeId := false, expire := false, noStore := false, written := false,
          Path := ss.Path, Domain := ss.Domain, Expires := ss.Expires, Secure := ss.Secure,
          HttpOnly := ss.HttpOnly },
        { store := (ss.Store.Get (ss.finalize now rw s wd).2.2.1.store
            (ss.finalize now rw s wd).2.1.sid).2,
          gen := (ss.finalize now rw s wd).2.2.1.gen,
          calls := (ss.finalize now rw s wd).2.2.1.calls ++
            [StoreCall.get (ss.finalize now rw s wd).2.1.sid] }) := by
  obtain ⟨st0, hset, hst, _⟩ := Sessions.finalize_persisted ss now rw s wd p he hneed henc hfin
  have hne : (ss.finalize now rw s wd).2.1.sid ≠ "" := by
    intro h
    rw [h, hempty] at hX
    exact Bool.noConfusion hX
  have hget : (ss.Store.Get (ss.finalize now rw s wd).2.2.1.store
      (ss.finalize now rw s wd).2.1.sid).1 = Except.ok p := by
    rw [hst]
    exact hstore st0 _ p hset
  exact Sessions.newSession_of_entry ss _ _ p s.values hX hne hget hp hdec

/-- Witness of C13: a written session with one string value goes through the in-memory
store and the codec `strEncode`, `strDecode` and comes back as an existing session with
the same bag. -/
theorem persist_then_load_witness :
    strManager.SidValidator "" = false ∧
    strManager.newSession (some sampleSid1)
        (strManager.finalize 0 [] (sampleSession.Set "username" (Value.str "foo"))
          sampleWorld).2.2.1 =
      (Except.ok { sampleSession with values := [("username", Value.str "foo")] },
        { store := [(sampleSid1, [1, 8, 117, 115, 101, 114, 110, 97, 109, 101, 3, 102, 111,
            111])],
          gen := [sampleSid2],
          calls := [StoreCall.set sampleSid1 [1, 8, 117, 115, 101, 114, 110, 97, 109, 101, 3,
            102, 111, 111], StoreCall.get sampleSid1] }) :=
  ⟨by decide,
    persist_then_load strManager 0 [] (sampleSession.Set "username" (Value.str "foo"))
      sampleWorld [1, 8, 117, 115, 101, 114, 110, 97, 109, 101, 3, 102, 111, 111]
      (by decide) rfl rfl rfl rfl (by decide) rfl
      (fun st k v _ => by
        show (MemoryStore.Get (GoMap.set st k v) k).1 = Except.ok v
        simp [MemoryStore.Get, GoMap.get_set_self])
      rfl (by decide)⟩

/-- C14, the code where the claim fails: the default manager over a new in-memory store,
a request without a cookie, `rand.Read` failing, a handler that leaves the session alone
and writes a response.
`sidGenerator` returns the empty string, which `sidValidator` rejects; `Middleware` adopts
it unchecked, and `finalize` stores the bag under the empty identifier and writes a cookie
whose value is the empty string. -/
theorem entropy_failure_issues_empty_sid (sha1 : Sha1) :
    sidValidator "" = false ∧
    sidGenerator sha1 [none] = ("", []) ∧
    (defaultManager sha1 sampleEncode sampleDecode).newSession none noEntropyWorld =
      (Except.ok emptySidSession, { store := NewMemoryStore, gen := [], calls := [] }) ∧
    (defaultManager sha1 sampleEncode sampleDecode).Middleware
        (fun s => { atWrite := s, writes := true }) 0 none [] noEntropyWorld =
      (Except.ok (emptySidSession,
          [{ Name := "sessions", Value := "", Path := "", Domain := "", Expires := 0,
             Secure := false, HttpOnly := false }]),
        { store := [("", [1])], gen := [], calls := [StoreCall.set "" [1]] }) :=
  ⟨by decide, rfl, rfl, rfl⟩

theorem Sessions.finalize_of_not_needStore (ss : Sessions σ γ) (now : Time)
    (rw : ResponseWriter) (s : session) (wd : World σ γ) (h : s.needStore ss = false) :
    ss.finalize now rw s wd = (none, s, wd, s.setCookie ss now rw) := by
  simp [Sessions.finalize, session.store, h]

theorem Sessions.finalize_of_encode_error (ss : Sessions σ γ) (now : Time)
    (rw : ResponseWriter) (s : session) (wd : World σ γ) (err : Error)
    (hneed : s.needStore ss = true) (he : s.expire = false) (hc : s.changeId = false)
    (henc : ss.Encode s.values = Except.error err) :
    ss.finalize now rw s wd = (some err, s, wd, rw) := by
  simp only [Sessions.Encode] at henc
  simp [Sessions.finalize, session.store, hneed, he, hc, Sessions.Encode, henc]

theorem Sessions.finalize_calls_of_encode_ok (ss : Sessions σ γ) (now : Time)
    (rw : ResponseWriter) (s : session) (wd : World σ γ) (b : Bytes)
    (hneed : s.needStore ss = true) (he : s.expire = false) (hc : s.changeId = false)
    (henc : ss.Encode s.values = Except.ok b) :
    (ss.finalize now rw s wd).2.2.1.calls = wd.calls ++ [StoreCall.set s.sid b] := by
  simp only [Sessions.Encode] at henc
  cases hS : (ss.Store.Set wd.store s.sid b).1 <;>
    simp [Sessions.finalize, session.store, hneed, he, hc, Sessions.Encode, henc,
      World.Set, hS]

theorem Sessions.finalize_calls_of_expire_or_changeId (ss : Sessions σ γ) (now : Time)
    (rw : ResponseWriter) (s : session) (wd : World σ γ)
    (hneed : s.needStore ss = true) (h : s.expire = true ∨ s.changeId = true) :
    ∃ cs : List StoreCall,
      (ss.finalize now rw s wd).2.2.1.calls = wd.calls ++ StoreCall.del s.sid :: cs := by
  cases he : s.expire with
  | true =>
    refine ⟨[], ?_⟩
    cases hD : (ss.Store.Del wd.store s.sid).1 <;>
      simp [Sessions.finalize, session.store, hneed, he, World.Del, hD]
  | false =>
    have hc : s.changeId = true := by
      rcases h with h | h
      · rw [he] at h
        exact Bool.noConfusion h
      · exact h
    rcases hD : ss.Store.Del wd.store s.sid with ⟨e, st⟩
    cases e with
    | some err =>
      refine ⟨[], ?_⟩
      simp [Sessions.finalize, session.store, hneed, he, hc, World.Del, hD]
    | none =>
      cases henc : ss.gobEncode s.values with
      | error err =>
        refine ⟨[], ?_⟩
        simp [Sessions.finalize, session.store, hneed, he, hc, World.Del, hD,
          session.sidRegenerate, Sessions.Encode, henc]
      | ok b =>
        refine ⟨[StoreCall.set (ss.SidGenerator wd.gen).1 b], ?_⟩
        cases hS : (ss.Store.Set st (ss.SidGenerator wd.gen).1 b).1 <;>
          simp [Sessions.finalize, session.store, hneed, he, hc, World.Del, hD,
            session.sidRegenerate, Sessions.Encode, henc, World.Set, hS]

theorem Sessions.finalize_calls_iff (ss : Sessions σ γ) (now : Time) (rw : ResponseWriter)
    (s : session) (wd : World σ γ) :
    (∃ (c : StoreCall) (cs : List StoreCall),
        (ss.finalize now rw s wd).2.2.1.calls = wd.calls ++ c :: cs) ↔
      s.needStore ss = true ∧
        (s.expire = true ∨ s.changeId = true ∨ ∃ b, ss.Encode s.values = Except.ok b) := by
  constructor
  · rintro ⟨c, cs, h⟩
    cases hneed : s.needStore ss with
    | false =>
      rw [Sessions.finalize_of_not_needStore ss now rw s wd hneed] at h
      simp at h
    | true =>
      refine ⟨rfl, ?_⟩
      cases he : s.expire with
      | true => exact Or.inl rfl
      | false =>
        cases hc : s.changeId with
        | true => exact Or.inr (Or.inl rfl)
        | false =>
          cases henc : ss.Encode s.values with
          | ok b => exact Or.inr (Or.inr ⟨b, rfl⟩)
          | error err =>
            rw [Sessions.finalize_of_encode_error ss now rw s wd err hneed he hc henc] at h
            simp at h
  · rintro ⟨hneed, h⟩
    rcases h with h | h | ⟨b, hb⟩
    · obtain ⟨cs, hcs⟩ :=
        Sessions.finalize_calls_of_expire_or_changeId ss now rw s wd hneed (Or.inl h)
      exact ⟨_, cs, hcs⟩
    · obtain ⟨cs, hcs⟩ :=
        Sessions.finalize_calls_of_expire_or_changeId ss now rw s wd hneed (Or.inr h)
      exact ⟨_, cs, hcs⟩
    · cases he : s.expire with
      | true =>
        obtain ⟨cs, hcs⟩ :=
          Sessions.finalize_calls_of_expire_or_changeId ss now rw s wd hneed (Or.inl he)
        exact ⟨_, cs, hcs⟩
      | false =>
        cases hc : s.changeId with
        | true =>
          obtain ⟨cs, hcs⟩ :=
            Sessions.finalize_calls_of_expire_or_changeId ss now rw s wd hneed (Or.inr hc)
          exact ⟨_, cs, hcs⟩
        | false =>
          exact ⟨_, [], Sessions.finalize_calls_of_encode_ok ss now rw s wd b hneed he hc hb⟩

/-- C15, counterexample: an existing session in which the handler set a key to a value
the codec cannot encode. `noStore` is not set and `written` is, yet `finalize` returns
the error of `Encode` and makes no store call. -/
theorem finalize_store_calls_counterexample :
    unencodableSession.noStore = false ∧ unencodableSession.written = true ∧
    strManager.finalize 0 [] unencodableSession sampleWorld =
      (some "gob: type not registered for interface", unencodableSession, sampleWorld, []) :=
  ⟨rfl, rfl, rfl⟩

/-- C15, amended: when `noStore` is not set, `finalize` makes a store call exactly when
`written` or `expire` or `changeId` is set or the session is new, kept although empty,
with an empty bag, and moreover `expire` or `changeId` is set or the bag can be encoded.
If the bag cannot be encoded and neither `expire` nor `changeId` is set, `finalize`
returns the error of `Encode` and makes no store call. For an existing session that was
only read (not written, no flag set), `finalize` makes no store call, leaves the world
as it is and writes no cookie. -/
theorem finalize_store_calls (ss : Sessions σ γ) (now : Time) (rw : ResponseWriter)
    (s : session) (wd : World σ γ) (hn : s.noStore = false) :
    ((∃ (c : StoreCall) (cs : List StoreCall),
        (ss.finalize now rw s wd).2.2.1.calls = wd.calls ++ c :: cs) ↔
      (s.written = true ∨ s.expire = true ∨ s.changeId = true ∨
        (s.isNew = true ∧ ss.NoKeepEmpty = false ∧ s.values.len = 0)) ∧
      (s.expire = true ∨ s.changeId = true ∨ ∃ b, ss.Encode s.values = Except.ok b)) ∧
    (∀ err : Error,
      (s.written = true ∨ (s.isNew = true ∧ ss.NoKeepEmpty = false ∧ s.values.len = 0)) →
      s.expire = false → s.changeId = false → ss.Encode s.values = Except.error err →
      ss.finalize now rw s wd = (some err, s, wd, rw)) ∧
    (s.isNew = false → s.written = false → s.expire = false → s.changeId = false →
      ss.finalize now rw s wd = (none, s, wd, rw)) := by
  have hneed : s.needStore ss = true ↔
      (s.written = true ∨ s.expire = true ∨ s.changeId = true ∨
        (s.isNew = true ∧ ss.NoKeepEmpty = false ∧ s.values.len = 0)) := by
    rw [session.needStore_iff]
    constructor
    · rintro ⟨_, h | h | h | h⟩
      · exact Or.inr (Or.inr (Or.inr h))
      · exact Or.inl h
      · exact Or.inr (Or.inl h)
      · exact Or.inr (Or.inr (Or.inl h))
    · rintro (h | h | h | h)
      · exact ⟨hn, Or.inr (Or.inl h)⟩
      · exact ⟨hn, Or.inr (Or.inr (Or.inl h))⟩
      · exact ⟨hn, Or.inr (Or.inr (Or.inr h))⟩
      · exact ⟨hn, Or.inl h⟩
  refine ⟨?_, ?_, ?_⟩
  · rw [Sessions.finalize_calls_iff, hneed]
  · intro err hcond he hc henc
    have hneed1 : s.needStore ss = true := by
      rw [hneed]
      rcases hcond with h | h
      · exact Or.inl h
      · exact Or.inr (Or.inr (Or.inr h))
    exact Sessions.finalize_of_encode_error ss now rw s wd err hneed1 he hc henc
  · intro hnew hw he hc
    have hneed0 : s.needStore ss = false := by
      cases h : s.needStore ss with
      | false => rfl
      | true =>
        rw [hneed] at h
        simp [hnew, hw, he, hc] at h
    have hcookie : s.needSetCookie ss = false := by
      cases h : s.needSetCookie ss with
      | false => rfl
      | true =>
        rw [session.needSetCookie_iff] at h
        simp [hnew, he, hc] at h
    rw [Sessions.finalize_of_not_needStore ss now rw s wd hneed0, session.setCookie_eq,
      hcookie]
    rfl

/-- Witness of C15, amended: an existing session that the handler only read; and a
written one, for which the store call is made. -/
theorem finalize_store_calls_witness :
    sampleSession.noStore = false ∧
    sampleManager.finalize 0 [] sampleSession sampleWorld =
      (none, sampleSession, sampleWorld, []) ∧
    ∃ (c : StoreCall) (cs : List StoreCall),
      (sampleManager.finalize 0 [] (sampleSession.Set "counter" (Value.int 1))
        sampleWorld).2.2.1.calls = sampleWorld.calls ++ c :: cs :=
  ⟨rfl, (finalize_store_calls sampleManager 0 [] sampleSession sampleWorld rfl).2.2
      rfl rfl rfl rfl,
    (finalize_store_calls sampleManager 0 [] (sampleSession.Set "counter" (Value.int 1))
      sampleWorld rfl).1.2 ⟨Or.inl rfl, Or.inr (Or.inr ⟨[1, 0], rfl⟩)⟩⟩

/-- C16, counterexample: under the no-keep-empty policy, a request without a cookie whose
handler deletes a key the bag does not hold. The bag is empty at `finalize` time, and
`finalize` stores it under the new identifier and writes a cookie. -/
theorem noKeepEmpty_store_counterexample :
    noKeepManager.NoKeepEmpty = true ∧
    noKeepManager.newSession none sampleWorld =
      (Except.ok downFresh, { store := [(sampleSid1, [1])], gen := [], calls := [] }) ∧
    (downFresh.Del "absent").values = [] ∧ (downFresh.Del "absent").HasKey = false ∧
    noKeepManager.finalize 0 [] (downFresh.Del "absent")
        { store := [(sampleSid1, [1])], gen := [], calls := [] } =
      (none, downFresh.Del "absent",
        { store := [(sampleSid1, [1]), (sampleSid2, [1])], gen := [],
          calls := [StoreCall.set sampleSid2 [1]] },
        [{ Name := "sessions", Value := sampleSid2, Path := "/", Domain := "", Expires := 0,
           Secure := false, HttpOnly := true }]) :=
  ⟨rfl, rfl, rfl, rfl, rfl⟩

/-- C16, amended: under the no-keep-empty policy, for a new session with neither `expire`
nor `changeId` set, `finalize` makes a store call only if `written` is set and `noStore`
is not; the bag need not hold a key. If `written` is not set, `finalize` does nothing at
all. If `written` is set, `noStore` is not, and the bag encodes to `b`, the one store call
is `Store.Set` of `b` under the session's identifier. -/
theorem noKeepEmpty_store_only_if_written (ss : Sessions σ γ) (now : Time)
    (rw : ResponseWriter) (s : session) (wd : World σ γ) (hk : ss.NoKeepEmpty = true)
    (_hnew : s.isNew = true) (he : s.expire = false) (hc : s.changeId = false) :
    ((∃ (c : StoreCall) (cs : List StoreCall),
        (ss.finalize now rw s wd).2.2.1.calls = wd.calls ++ c :: cs) →
      s.written = true ∧ s.noStore = false) ∧
    (s.written = false → ss.finalize now rw s wd = (none, s, wd, rw)) ∧
    (∀ b : Bytes, s.written = true → s.noStore = false →
      ss.Encode s.values = Except.ok b →
      (ss.finalize now rw s wd).2.2.1.calls = wd.calls ++ [StoreCall.set s.sid b]) := by
  have hneed : s.needStore ss = true ↔ s.noStore = false ∧ s.written = true := by
    rw [session.needStore_iff]
    simp [hk, he, hc]
  refine ⟨?_, ?_, ?_⟩
  · intro h
    have h1 := ((Sessions.finalize_calls_iff ss now rw s wd).mp h).1
    rw [hneed] at h1
    exact ⟨h1.2, h1.1⟩
  · intro hw
    have hneed0 : s.needStore ss = false := by
      cases h : s.needStore ss with
      | false => rfl
      | true =>
        rw [hneed, hw] at h
        exact absurd h.2 (by simp)
    have hcookie : s.needSetCookie ss = false := by
      cases h : s.needSetCookie ss with
      | false => rfl
      | true =>
        rw [session.needSetCookie_iff] at h
        simp [hk, hw, he, hc] at h
    rw [Sessions.finalize_of_not_needStore ss now rw s wd hneed0, session.setCookie_eq,
      hcookie]
    rfl
  · intro b hw hn henc
    exact Sessions.finalize_calls_of_encode_ok ss now rw s wd b (hneed.mpr ⟨hn, hw⟩) he hc henc

/-- Witness of C16, amended: the new session of a request without a cookie, untouched,
under the no-keep-empty policy. -/
theorem noKeepEmpty_store_only_if_written_witness :
    noKeepManager.NoKeepEmpty = true ∧ downFresh.isNew = true ∧ downFresh.expire = false ∧
    downFresh.changeId = false ∧ downFresh.written = false ∧
    noKeepManager.finalize 0 [] downFresh sampleWorld = (none, downFresh, sampleWorld, []) :=
  ⟨rfl, rfl, rfl, rfl, rfl,
    (noKeepEmpty_store_only_if_written noKeepManager 0 [] downFresh sampleWorld
      rfl rfl rfl rfl).2.1 rfl⟩

/-- C17: during rotation (`changeId` set, `expire` and `noStore` not set), if `Store.Del`
on the old identifier returns an error, `session.store` returns that error after this one
store call: the session keeps its identifier, the generator is not run, `Store.Set` is
not called, and `finalize` returns the error and leaves the response as it was. -/
theorem rotation_del_error (ss : Sessions σ γ) (now : Time) (rw : ResponseWriter)
    (s : session) (wd : World σ γ) (err : Error) (hc : s.changeId = true)
    (he : s.expire = false) (hn : s.noStore = false)
    (hdel : (ss.Store.Del wd.store s.sid).1 = some err) :
    s.store ss wd =
      (some err, s,
        { store := (ss.Store.Del wd.store s.sid).2, gen := wd.gen,
          calls := wd.calls ++ [StoreCall.del s.sid] }) ∧
    ss.finalize now rw s wd =
      (some err, s,
        { store := (ss.Store.Del wd.store s.sid).2, gen := wd.gen,
          calls := wd.calls ++ [StoreCall.del s.sid] }, rw) := by
  have hneed : s.needStore ss = true := by
    rw [session.needStore_iff]
    exact ⟨hn, Or.inr (Or.inr (Or.inr hc))⟩
  rcases hD : ss.Store.Del wd.store s.sid with ⟨e, st⟩
  rw [hD] at hdel
  simp only at hdel
  subst hdel
  have hstore : s.store ss wd =
      (some err, s, { store := st, gen := wd.gen, calls := wd.calls ++ [StoreCall.del s.sid] }) := by
    simp [session.store, hneed, he, hc, World.Del, hD]
  refine ⟨hstore, ?_⟩
  simp [Sessions.finalize, hstore]

/-- Witness of C17: a rotation over a store that cannot be reached. -/
theorem rotation_del_error_witness :
    rotateSession.changeId = true ∧ rotateSession.expire = false ∧
    rotateSession.noStore = false ∧
    downManager.finalize 0 [] rotateSession downWorld =
      (some "connection refused", rotateSession,
        { store := (), gen := [sampleSid2], calls := [StoreCall.del sampleSid1] }, []) :=
  ⟨rfl, rfl, rfl,
    (rotation_del_error downManager 0 [] rotateSession downWorld "connection refused"
      rfl rfl rfl rfl).2⟩

/-- C18: for a cookie value the validator rejects, `getSessionValues` makes no store call
and leaves the world as it is, and returns what it returns when the cookie is absent:
the empty identifier, an empty bag and no error. -/
theorem getSessionValues_invalid (ss : Sessions σ γ) (v : String) (wd : World σ γ)
    (hv : ss.SidValidator v = false) :
    ss.getSessionValues (some v) wd = (("", [], none), wd) ∧
    ss.getSessionValues (some v) wd = ss.getSessionValues none wd := by
  have h1 : ss.getSessionValues (some v) wd = (("", [], none), wd) := by
    simp [Sessions.getSessionValues, hv]
  exact ⟨h1, h1.trans rfl⟩

/-- Witness of C18: an identifier with an upper-case digit, for which the store has an
entry. -/
theorem getSessionValues_invalid_witness :
    sampleManager.SidValidator "0123456789ABCDEF0123456789abcdef01234567" = false ∧
    sampleManager.getSessionValues (some "0123456789ABCDEF0123456789abcdef01234567")
        { store := [("0123456789ABCDEF0123456789abcdef01234567", [1])], gen := [],
          calls := [] } =
      (("", [], none),
        { store := [("0123456789ABCDEF0123456789abcdef01234567", [1])], gen := [],
          calls := [] }) :=
  ⟨by decide,
    (getSessionValues_invalid sampleManager "0123456789ABCDEF0123456789abcdef01234567"
      { store := [("0123456789ABCDEF0123456789abcdef01234567", [1])], gen := [],
        calls := [] } (by decide)).1⟩

/-- C19: let the validator reject the empty string, as every validator has to. When the
pre-handler phase succeeds, the session is new exactly when the cookie is absent, or its
value fails validation, or the store returns an empty payload for it. In those cases the
identifier is the generator's next output and the bag is empty; otherwise the cookie
value is valid, the store returns a non-empty payload for it that decodes to the bag, and
the identifier is the cookie value. -/
theorem newSession_isNew (ss : Sessions σ γ) (cookie : Option String) (wd wd1 : World σ γ)
    (s : session) (hempty : ss.SidValidator "" = false)
    (h : ss.newSession cookie wd = (Except.ok s, wd1)) :
    (s.isNew = true ↔
      (cookie = none ∨ ∃ v, cookie = some v ∧
        (ss.SidValidator v = false ∨ (ss.Store.Get wd.store v).1 = Except.ok []))) ∧
    ((cookie = none ∨ ∃ v, cookie = some v ∧
        (ss.SidValidator v = false ∨ (ss.Store.Get wd.store v).1 = Except.ok [])) →
      s.sid = (ss.SidGenerator wd.gen).1 ∧ s.values = []) ∧
    (¬ (cookie = none ∨ ∃ v, cookie = some v ∧
        (ss.SidValidator v = false ∨ (ss.Store.Get wd.store v).1 = Except.ok [])) →
      ∃ (v : String) (payload : Bytes), cookie = some v ∧ ss.SidValidator v = true ∧
        (ss.Store.Get wd.store v).1 = Except.ok payload ∧ payload ≠ [] ∧
        ss.Decode payload = Except.ok s.values ∧ s.sid = v) := by
  cases cookie with
  | none =>
    simp only [Sessions.newSession, Sessions.getSessionValues] at h
    simp only [if_true, Prod.mk.injEq, Except.ok.injEq] at h
    obtain ⟨hs, _⟩ := h
    subst hs
    simp
  | some v =>
    cases hv : ss.SidValidator v with
    | false =>
      simp only [Sessions.newSession, Sessions.getSessionValues, hv] at h
      simp only [Bool.not_false, if_true, Prod.mk.injEq, Except.ok.injEq] at h
      obtain ⟨hs, _⟩ := h
      subst hs
      simp [hv]
    | true =>
      have hvne : v ≠ "" := by
        intro h0
        rw [h0, hempty] at hv
        exact Bool.noConfusion hv
      rcases hG : ss.Store.Get wd.store v with ⟨r, st⟩
      cases r with
      | error err =>
        simp [Sessions.newSession, Sessions.getSessionValues, hv, World.Get, hG] at h
      | ok payload =>
        cases payload with
        | nil =>
          simp only [Sessions.newSession, Sessions.getSessionValues, hv, World.Get, hG] at h
          simp only [Bool.not_true, Bool.false_eq_true, if_false, List.length_nil, if_true,
            Prod.mk.injEq, Except.ok.injEq] at h
          obtain ⟨hs, _⟩ := h
          subst hs
          simp [hv, hG]
        | cons x rest =>
          cases hd : ss.gobDecode (x :: rest) with
          | error err =>
            simp [Sessions.newSession, Sessions.getSessionValues, hv, World.Get, hG,
              Sessions.Decode, hd] at h
          | ok b =>
            simp only [Sessions.newSession, Sessions.getSessionValues, hv, World.Get, hG,
              Sessions.Decode, hd] at h
            simp only [Bool.not_true, Bool.false_eq_true, if_false, List.length_cons,
              Nat.add_one_ne_zero, hvne, Prod.mk.injEq, Except.ok.injEq] at h
            obtain ⟨hs, _⟩ := h
            subst hs
            simp [Sessions.Decode, hd, hv, hG]

/-- Witness of C19: a valid cookie whose payload the store holds yields a session that is
not new, since none of the three conditions holds. -/
theorem newSession_isNew_witness :
    strManager.SidValidator "" = false ∧
    strManager.newSession (some sampleSid1) storedWorld =
      (Except.ok loadedSession,
        { store := storedWorld.store, gen := [sampleSid2],
          calls := [StoreCall.get sampleSid1] }) ∧
    loadedSession.sid = sampleSid1 ∧
    (loadedSession.isNew = true ↔
      ((some sampleSid1 : Option String) = none ∨ ∃ v, some sampleSid1 = some v ∧
        (strManager.SidValidator v = false ∨
          (strManager.Store.Get storedWorld.store v).1 = Except.ok []))) :=
  ⟨by decide, rfl, rfl,
    (newSession_isNew strManager (some sampleSid1) storedWorld
      { store := storedWorld.store, gen := [sampleSid2], calls := [StoreCall.get sampleSid1] }
      loadedSession (by decide) rfl).1⟩

/-- C20: `getSessionValues` returns the error `err` exactly when the cookie is present,
the validator accepts its value, and either `Store.Get` fails for it with `err` or
`Store.Get` returns a non-empty payload that `Decode` rejects with `err`. In that case it
returns the empty identifier and an empty bag, no session is constructed, and the request
panics with `err` whatever the handler is: the handler and `finalize` are not run, and the
world is the one `getSessionValues` leaves. -/
theorem getSessionValues_error (ss : Sessions σ γ) (cookie : Option String)
    (wd : World σ γ) :
    (∀ err : Error, (ss.getSessionValues cookie wd).1.2.2 = some err ↔
      ∃ v, cookie = some v ∧ ss.SidValidator v = true ∧
        ((ss.Store.Get wd.store v).1 = Except.error err ∨
          ∃ payload, (ss.Store.Get wd.store v).1 = Except.ok payload ∧ payload ≠ [] ∧
            ss.Decode payload = Except.error err)) ∧
    (∀ err : Error, (ss.getSessionValues cookie wd).1.2.2 = some err →
      (ss.getSessionValues cookie wd).1.1 = "" ∧
      (ss.getSessionValues cookie wd).1.2.1 = [] ∧
      ss.newSession cookie wd = (Except.error err, (ss.getSessionValues cookie wd).2) ∧
      ∀ (h : session → Handled) (now : Time) (rw : ResponseWriter),
        ss.Middleware h now cookie rw wd =
          (Except.error err, (ss.getSessionValues cookie wd).2)) := by
  have hpanic : ∀ err : Error, (ss.getSessionValues cookie wd).1.2.2 = some err →
      ss.newSession cookie wd = (Except.error err, (ss.getSessionValues cookie wd).2) := by
    intro err h
    rcases hg : ss.getSessionValues cookie wd with ⟨⟨sid, values, e⟩, w1⟩
    rw [hg] at h
    simp only at h
    subst h
    simp [Sessions.newSession, hg]
  refine ⟨?_, ?_⟩
  · intro err
    cases cookie with
    | none => simp [Sessions.getSessionValues]
    | some v =>
      cases hv : ss.SidValidator v with
      | false => simp [Sessions.getSessionValues, hv]
      | true =>
        rcases hG : ss.Store.Get wd.store v with ⟨r, st⟩
        cases r with
        | error e => simp [Sessions.getSessionValues, hv, World.Get, hG]
        | ok payload =>
          cases payload with
          | nil => simp [Sessions.getSessionValues, hv, World.Get, hG]
          | cons x rest =>
            cases hd : ss.gobDecode (x :: rest) with
            | error e => simp [Sessions.getSessionValues, hv, World.Get, hG, Sessions.Decode, hd]
            | ok b => simp [Sessions.getSessionValues, hv, World.Get, hG, Sessions.Decode, hd]
  · intro err h
    have hn := hpanic err h
    have hshape : (ss.getSessionValues cookie wd).1.1 = "" ∧
        (ss.getSessionValues cookie wd).1.2.1 = [] := by
      cases cookie with
      | none => simp [Sessions.getSessionValues]
      | some v =>
        cases hv : ss.SidValidator v with
        | false => simp [Sessions.getSessionValues, hv]
        | true =>
          rcases hG : ss.Store.Get wd.store v with ⟨r, st⟩
          cases r with
          | error e => simp [Sessions.getSessionValues, hv, World.Get, hG]
          | ok payload =>
            cases payload with
            | nil => simp [Sessions.getSessionValues, hv, World.Get, hG]
            | cons x rest =>
              cases hd : ss.gobDecode (x :: rest) with
              | error e =>
                simp [Sessions.getSessionValues, hv, World.Get, hG, Sessions.Decode, hd]
              | ok b =>
                simp [Sessions.getSessionValues, hv, World.Get, hG, Sessions.Decode, hd] at h
    refine ⟨hshape.1, hshape.2, hn, ?_⟩
    intro hh now rw
    simp [Sessions.Middleware, hn]

/-- Witness of C20: a valid cookie over a store that cannot be reached, and a valid
cookie whose stored payload the decoder rejects. -/
theorem getSessionValues_error_witness :
    (downManager.getSessionValues (some sampleSid1) downWorld).1.2.2 =
      some "connection refused" ∧
    downManager.Middleware
        (fun s => { atWrite := s.Set "counter" (Value.int 1), writes := true }) 0
        (some sampleSid1) [] downWorld =
      (Except.error "connection refused",
        { store := (), gen := [sampleSid2], calls := [StoreCall.get sampleSid1] }) ∧
    (strManager.getSessionValues (some sampleSid1) corruptWorld).1.2.2 =
      some "gob: unknown type id or corrupted data" :=
  ⟨((getSessionValues_error downManager (some sampleSid1) downWorld).1
      "connection refused").2 ⟨sampleSid1, rfl, by decide, Or.inl rfl⟩,
    ((getSessionValues_error downManager (some sampleSid1) downWorld).2
      "connection refused" rfl).2.2.2
      (fun s => { atWrite := s.Set "counter" (Value.int 1), writes := true }) 0 [],
    ((getSessionValues_error strManager (some sampleSid1) corruptWorld).1
      "gob: unknown type id or corrupted data").2
      ⟨sampleSid1, rfl, by decide, Or.inr ⟨[7, 7], rfl, by decide, rfl⟩⟩⟩

theorem Call.apply_inv (c : Call) (s s1 : session) (h : c.apply s = some s1) :
    s1.sid = s.sid ∧ s1.isNew = s.isNew ∧ s1.expire = s.expire ∧ s1.changeId = s.changeId ∧
    s1.noStore = s.noStore ∧
    ((s.values.len ≠ 0 → s.written = true) → (s1.values.len ≠ 0 → s1.written = true)) := by
  cases c with
  | Set key val =>
    simp only [Call.apply, Option.some.injEq] at h
    subst h
    exact ⟨rfl, rfl, rfl, rfl, rfl, fun _ _ => rfl⟩
  | Del key =>
    simp only [Call.apply, Option.some.injEq] at h
    subst h
    exact ⟨rfl, rfl, rfl, rfl, rfl, fun _ _ => rfl⟩
  | AddFlash val vars =>
    simp only [Call.apply, session.AddFlash] at h
    split at h
    · simp only [Option.some.injEq] at h
      subst h
      exact ⟨rfl, rfl, rfl, rfl, rfl, fun _ _ => rfl⟩
    · exact absurd h (by simp)
    · simp only [Option.some.injEq] at h
      subst h
      exact ⟨rfl, rfl, rfl, rfl, rfl, fun _ _ => rfl⟩
  | Flashes vars =>
    simp only [Call.apply, session.Flashes] at h
    split at h
    · exact absurd h (by simp)
    · rename_i r hr
      split at hr
      · simp only [Option.some.injEq] at hr
        subst hr
        simp only [Option.some.injEq] at h
        subst h
        exact ⟨rfl, rfl, rfl, rfl, rfl, fun _ _ => rfl⟩
      · exact absurd hr (by simp)
      · simp only [Option.some.injEq] at hr
        subst hr
        simp only [Option.some.injEq] at h
        subst h
        exact ⟨rfl, rfl, rfl, rfl, rfl, fun hi => hi⟩

theorem session.handle_inv (cs : List Call) :
    ∀ (s s1 : session), s.handle cs = some s1 →
      s1.sid = s.sid ∧ s1.isNew = s.isNew ∧ s1.expire = s.expire ∧
      s1.changeId = s.changeId ∧ s1.noStore = s.noStore ∧
      ((s.values.len ≠ 0 → s.written = true) → (s1.values.len ≠ 0 → s1.written = true)) := by
  induction cs with
  | nil =>
    intro s s1 h
    simp only [session.handle, Option.some.injEq] at h
    subst h
    exact ⟨rfl, rfl, rfl, rfl, rfl, fun hi => hi⟩
  | cons c rest ih =>
    intro s s1 h
    simp only [session.handle] at h
    cases hc : c.apply s with
    | none => simp [hc] at h
    | some s2 =>
      simp only [hc] at h
      obtain ⟨a1, a2, a3, a4, a5, a6⟩ := Call.apply_inv c s s2 hc
      obtain ⟨b1, b2, b3, b4, b5, b6⟩ := ih s2 s1 h
      exact ⟨b1.trans a1, b2.trans a2, b3.trans a3, b4.trans a4, b5.trans a5,
        fun hi => b6 (a6 hi)⟩

/-- C21, counterexample: the default policy, a new session as `Middleware` constructs it,
a handler that sets one key to a value the codec cannot encode. `noStore` is not set, yet
`finalize` returns the error of `Encode`, makes no store call and writes no cookie. -/
theorem new_session_finalize_counterexample :
    strManager.NoKeepEmpty = false ∧
    strManager.newSession none sampleWorld =
      (Except.ok downFresh, { store := [(sampleSid1, [1])], gen := [], calls := [] }) ∧
    downFresh.handle [Call.Set "user" (Value.other "main.User")] =
      some (downFresh.Set "user" (Value.other "main.User")) ∧
    strManager.finalize 0 [] (downFresh.Set "user" (Value.other "main.User"))
        { store := [(sampleSid1, [1])], gen := [], calls := [] } =
      (some "gob: type not registered for interface",
        downFresh.Set "user" (Value.other "main.User"),
        { store := [(sampleSid1, [1])], gen := [], calls := [] }, []) :=
  ⟨rfl, rfl, rfl, rfl⟩

/-- C21, amended: take a new session with an empty bag, `written` false and no flag set,
under the default policy, and any sequence of `Set`, `Del`, `AddFlash` and `Flashes` calls
that runs to its end. Afterwards the bag is non-empty only if `written` is set, so
`needStore` and `needSetCookie` both hold, and `finalize` encodes the bag and makes one
store call, `Store.Set` of the encoding under the session's identifier, and writes a
cookie carrying that identifier exactly when that call succeeds. If `Encode` fails,
`finalize` returns its error and makes no store call and writes no cookie; if `Store.Set`
fails, `finalize` returns its error and writes no cookie. -/
theorem new_session_finalize (ss : Sessions σ γ) (now : Time) (rw : ResponseWriter)
    (s0 s : session) (wd : World σ γ) (cs : List Call)
    (hk : ss.NoKeepEmpty = false) (hnew : s0.isNew = true) (hv : s0.values = [])
    (_hw : s0.written = false) (hn : s0.noStore = false) (he : s0.expire = false)
    (hc : s0.changeId = false) (hrun : s0.handle cs = some s) :
    (s.values.len ≠ 0 → s.written = true) ∧
    s.needStore ss = true ∧ s.needSetCookie ss = true ∧ s.sid = s0.sid ∧
    ss.finalize now rw s wd =
      match ss.Encode s.values with
      | Except.error err => (some err, s, wd, rw)
      | Except.ok b =>
        ((ss.Store.Set wd.store s.sid b).1, s,
          { store := (ss.Store.Set wd.store s.sid b).2, gen := wd.gen,
            calls := wd.calls ++ [StoreCall.set s.sid b] },
          if (ss.Store.Set wd.store s.sid b).1 = none then
            rw ++ [{ Name := ss.CookieName, Value := s.sid, Path := s.Path,
                     Domain := s.Domain, Expires := s.Expires, Secure := s.Secure,
                     HttpOnly := s.HttpOnly }]
          else rw) := by
  obtain ⟨h1, h2, h3, h4, h5, h6⟩ := session.handle_inv cs s0 s hrun
  have hinv : s.values.len ≠ 0 → s.written = true :=
    h6 (fun hlen => absurd (by rw [hv]; rfl) hlen)
  have hcond : (s.isNew = true ∧ ss.NoKeepEmpty = false ∧ s.values.len = 0) ∨
      (s.isNew = true ∧ s.written = true) := by
    by_cases hlen : s.values.len = 0
    · exact Or.inl ⟨h2.trans hnew, hk, hlen⟩
    · exact Or.inr ⟨h2.trans hnew, hinv hlen⟩
  have hneed : s.needStore ss = true := by
    rw [session.needStore_iff]
    refine ⟨h5.trans hn, ?_⟩
    rcases hcond with h | h
    · exact Or.inl h
    · exact Or.inr (Or.inl h.2)
  have hcookie : s.needSetCookie ss = true := by
    rw [session.needSetCookie_iff]
    rcases hcond with h | h
    · exact Or.inl h
    · exact Or.inr (Or.inl h)
  have he1 : s.expire = false := h3.trans he
  have hc1 : s.changeId = false := h4.trans hc
  refine ⟨hinv, hneed, hcookie, h1, ?_⟩
  cases henc : ss.Encode s.values with
  | error err =>
    exact Sessions.finalize_of_encode_error ss now rw s wd err hneed he1 hc1 henc
  | ok b =>
    simp only [Sessions.Encode] at henc
    cases hS : (ss.Store.Set wd.store s.sid b).1 with
    | none =>
      simp [Sessions.finalize, session.store, hneed, he1, hc1, Sessions.Encode, henc,
        World.Set, hS, session.setCookie_eq, hcookie]
    | some err =>
      simp [Sessions.finalize, session.store, hneed, he1, hc1, Sessions.Encode, henc,
        World.Set, hS]

/-- Witness of C21, amended: on the new session of a first request, a handler that reads
the flashes, finds none, sets one key and deletes a key that is not there. The bag is
stored and the cookie written. -/
theorem new_session_finalize_witness :
    strManager.NoKeepEmpty = false ∧ downFresh.isNew = true ∧ downFresh.values = [] ∧
    downFresh.written = false ∧ downFresh.noStore = false ∧
    downFresh.handle [Call.Flashes [], Call.Set "username" (Value.str "foo"),
        Call.Del "other"] =
      some (downFresh.Set "username" (Value.str "foo")) ∧
    strManager.finalize 0 [] (downFresh.Set "username" (Value.str "foo")) sampleWorld =
      (none, downFresh.Set "username" (Value.str "foo"),
        { store := [(sampleSid1, [1]),
            (sampleSid2, [1, 8, 117, 115, 101, 114, 110, 97, 109, 101, 3, 102, 111, 111])],
          gen := [sampleSid2],
          calls := [StoreCall.set sampleSid2
            [1, 8, 117, 115, 101, 114, 110, 97, 109, 101, 3, 102, 111, 111]] },
        [{ Name := "sessions", Value := sampleSid2, Path := "/", Domain := "", Expires := 0,
           Secure := false, HttpOnly := true }]) :=
  ⟨rfl, rfl, rfl, rfl, rfl, rfl,
    (new_session_finalize strManager 0 [] downFresh
      (downFresh.Set "username" (Value.str "foo")) sampleWorld
      [Call.Flashes [], Call.Set "username" (Value.str "foo"), Call.Del "other"]
      rfl rfl rfl rfl rfl rfl rfl rfl).2.2.2.2⟩

theorem session.needStore_of_needSetCookie (ss : Sessions σ γ) (s : session)
    (hn : s.noStore = false) (h : s.needSetCookie ss = true) : s.needStore ss = true := by
  rw [session.needSetCookie_iff] at h
  rw [session.needStore_iff]
  refine ⟨hn, ?_⟩
  rcases h with h | h | h | h
  · exact Or.inl h
  · exact Or.inr (Or.inl h.2)
  · exact Or.inr (Or.inr (Or.inl h))
  · exact Or.inr (Or.inr (Or.inr h))

theorem Sessions.finalize_of_store_error (ss : Sessions σ γ) (now : Time)
    (rw : ResponseWriter) (s : session) (wd : World σ γ) (err : Error)
    (h : (s.store ss wd).1 = some err) :
    (ss.finalize now rw s wd).1 = some err ∧ (ss.finalize now rw s wd).2.2.2 = rw := by
  rcases hs : s.store ss wd with ⟨e, s1, wd1⟩
  rw [hs] at h
  simp only at h
  subst h
  simp [Sessions.finalize, hs]

/-- C22: for a session whose `noStore` flag is not set, `needSetCookie` implies
`needStore`; if `session.store` returns an error, `finalize` returns it and leaves the
response as it was; and whenever `finalize` adds a cookie to the response, it returned no
error and its last store call succeeded: with `expire` set that call is the only one,
`Store.Del` on the session's identifier, and otherwise it is `Store.Set` of the encoded
bag under the identifier the session ends with. -/
theorem cookie_after_store (ss : Sessions σ γ) (now : Time) (rw : ResponseWriter)
    (s : session) (wd : World σ γ) (hn : s.noStore = false) :
    (s.needSetCookie ss = true → s.needStore ss = true) ∧
    (∀ err : Error, (s.store ss wd).1 = some err →
      (ss.finalize now rw s wd).1 = some err ∧ (ss.finalize now rw s wd).2.2.2 = rw) ∧
    ((ss.finalize now rw s wd).2.2.2 ≠ rw →
      (ss.finalize now rw s wd).1 = none ∧
      (s.expire = true →
        (ss.Store.Del wd.store s.sid).1 = none ∧
        (ss.finalize now rw s wd).2.2.1.calls = wd.calls ++ [StoreCall.del s.sid]) ∧
      (s.expire = false →
        ∃ (st : σ) (b : Bytes) (pre : List StoreCall),
          ss.Encode s.values = Except.ok b ∧
          (ss.Store.Set st (ss.finalize now rw s wd).2.1.sid b).1 = none ∧
          (ss.finalize now rw s wd).2.2.1.store =
            (ss.Store.Set st (ss.finalize now rw s wd).2.1.sid b).2 ∧
          (ss.finalize now rw s wd).2.2.1.calls =
            wd.calls ++ pre ++ [StoreCall.set (ss.finalize now rw s wd).2.1.sid b])) := by
  refine ⟨session.needStore_of_needSetCookie ss s hn,
    Sessions.finalize_of_store_error ss now rw s wd, ?_⟩
  intro hw
  have hfin : (ss.finalize now rw s wd).1 = none := by
    cases hs : (s.store ss wd).1 with
    | none =>
      rcases hs2 : s.store ss wd with ⟨e, s1, wd1⟩
      rw [hs2] at hs
      simp only at hs
      subst hs
      simp [Sessions.finalize, hs2]
    | some err =>
      exact absurd (Sessions.finalize_of_store_error ss now rw s wd err hs).2 hw
  have hneed : s.needStore ss = true := by
    cases h : s.needStore ss with
    | true => rfl
    | false =>
      rw [Sessions.finalize_of_not_needStore ss now rw s wd h] at hw
      have hcookie : s.needSetCookie ss = true := by
        cases hc : s.needSetCookie ss with
        | true => rfl
        | false =>
          rw [session.setCookie_eq, hc] at hw
          exact absurd rfl hw
      have h1 := session.needStore_of_needSetCookie ss s hn hcookie
      rw [h] at h1
      exact h1
  refine ⟨hfin, ?_, ?_⟩
  · intro he
    cases hD : (ss.Store.Del wd.store s.sid).1 with
    | none =>
      refine ⟨rfl, ?_⟩
      simp [Sessions.finalize, session.store, hneed, he, World.Del, hD]
    | some err =>
      simp [Sessions.finalize, session.store, hneed, he, World.Del, hD] at hfin
  · intro he
    cases hc : s.changeId with
    | false =>
      cases henc : ss.gobEncode s.values with
      | error err =>
        simp [Sessions.finalize, session.store, hneed, he, hc, Sessions.Encode, henc] at hfin
      | ok b =>
        cases hS : (ss.Store.Set wd.store s.sid b).1 with
        | some err =>
          simp [Sessions.finalize, session.store, hneed, he, hc, Sessions.Encode, henc,
            World.Set, hS] at hfin
        | none =>
          refine ⟨wd.store, b, [], ?_, ?_, ?_, ?_⟩ <;>
            simp [Sessions.finalize, session.store, hneed, he, hc, Sessions.Encode, henc,
              World.Set, hS]
    | true =>
      rcases hD : ss.Store.Del wd.store s.sid with ⟨e, st⟩
      cases e with
      | some err =>
        simp [Sessions.finalize, session.store, hneed, he, hc, World.Del, hD] at hfin
      | none =>
        cases henc : ss.gobEncode s.values with
        | error err =>
          simp [Sessions.finalize, session.store, hneed, he, hc, World.Del, hD,
            session.sidRegenerate, Sessions.Encode, henc] at hfin
        | ok b =>
          cases hS : (ss.Store.Set st (ss.SidGenerator wd.gen).1 b).1 with
          | some err =>
            simp [Sessions.finalize, session.store, hneed, he, hc, World.Del, hD,
              session.sidRegenerate, Sessions.Encode, henc, World.Set, hS] at hfin
          | none =>
            refine ⟨st, b, [StoreCall.del s.sid], ?_, ?_, ?_, ?_⟩ <;>
              simp [Sessions.finalize, session.store, hneed, he, hc, World.Del, hD,
                session.sidRegenerate, Sessions.Encode, henc, World.Set, hS]

/-- Witness of C22: a rotation over the in-memory store writes its cookie after the
`Del` and the `Set` have succeeded. -/
theorem cookie_after_store_witness :
    rotateSession.noStore = false ∧
    (sampleManager.finalize 0 [] rotateSession sampleWorld).2.2.2 ≠ [] ∧
    (sampleManager.finalize 0 [] rotateSession sampleWorld).1 = none ∧
    (sampleManager.finalize 0 [] rotateSession sampleWorld).2.2.1.calls =
      [StoreCall.del sampleSid1, StoreCall.set sampleSid2 [1, 0]] :=
  ⟨rfl, by decide,
    ((cookie_after_store sampleManager 0 [] rotateSession sampleWorld rfl).2.2
      (by decide)).1,
    rfl⟩

end FeverSessions
